import Mathlib

/-! # Soletta `process` flow module: the stdout/stderr writer (`output.c`)

A shallow embedding of `src/modules/flow/process/output.c`.

* The two static `struct output_data` instances become values of the record
  `output_data`; every C function becomes a function that takes the record and
  returns its new value, its C return value and the list of calls it made to
  its collaborators (`Event`), in program order.
* What the operating system and the rest of Soletta answer (the result of
  `write`, the clock, allocation results, `fcntl` results) is an explicit
  argument of the function that asks for it.
* `size_t` arithmetic is on `Nat` with an explicit reduction modulo
  `SIZE_MAX + 1`; `int`, `ssize_t` and `time_t` values are `Int`.
-/

namespace Soletta

/-! ## Constants of the platform -/

/-- Largest `size_t` (LP64). -/
def SIZE_MAX : Nat := 2 ^ 64 - 1

/-- The `errno` value "interrupted system call" (Linux). -/
def EINTR : Int := 4
/-- The `errno` value "bad file descriptor" (Linux). -/
def EBADF : Int := 9
/-- The `errno` value "try again", the would-block condition (Linux). -/
def EAGAIN : Int := 11
/-- The `errno` value "out of memory" (Linux). -/
def ENOMEM : Int := 12

/-- Nanoseconds per second, used to normalise a `struct timespec`. -/
def NSEC_PER_SEC : Int := 1000000000

/-- Constants that `output.c` takes from headers outside this file:
`CHUNK_MAX_TIME_NS` (`common.h`), the `SOL_FD_FLAGS_*` bits
(`sol-mainloop.h`) and the indices of the two `CLOSED` output ports
(generated node-type header). They are parameters of the model. -/
structure Consts where
  CHUNK_MAX_TIME_NS : Int
  SOL_FD_FLAGS_OUT : Nat
  SOL_FD_FLAGS_ERR : Nat
  STDOUT__OUT__CLOSED : Nat
  STDERR__OUT__CLOSED : Nat
  deriving DecidableEq, Repr

/-! ## Data model -/

/-- The `struct sol_blob` as far as `output.c` looks at it: its identity (the
pointer), its bytes `mem`, and `size = mem.length`, which is a `size_t`. -/
structure sol_blob where
  id : Nat
  mem : List Nat
  size_le : mem.length ≤ SIZE_MAX
  deriving DecidableEq

/-- The field `size` of a blob. -/
def sol_blob.size (b : sol_blob) : Nat := b.mem.length

/-- The `struct write_data`: one queued chunk. -/
structure write_data where
  blob : sol_blob
  offset : Nat
  deriving DecidableEq

/-- The `struct output_data`: the state of one output stream. `data` is the
`sol_vector` of `write_data`, `monitors` the `sol_ptr_vector` of nodes (a node
is identified by a number, its address), `watch` the `struct sol_fd *`
(`none` is `NULL`). -/
structure output_data where
  port : Nat
  fd : Int
  data : List write_data
  monitors : List Nat
  watch : Option Nat
  deriving DecidableEq

/-- The static `stderr_data`. -/
def stderr_data (K : Consts) : output_data :=
  { port := K.STDERR__OUT__CLOSED, fd := 2, data := [], monitors := [], watch := none }

/-- The static `stdout_data`. -/
def stdout_data (K : Consts) : output_data :=
  { port := K.STDOUT__OUT__CLOSED, fd := 1, data := [], monitors := [], watch := none }

/-- A call made to a collaborator, as the outside world sees it. -/
inductive Event where
  /-- The call `write(fd, blob->mem + offset, blob->size - offset)` returned `r`, with
  `errno` as given when `r < 0`. -/
  | write (fd : Int) (blob : sol_blob) (offset : Nat) (r : Int) (errno : Int)
  /-- A successful `sol_blob_ref(blob)`. -/
  | blob_ref (blob : sol_blob)
  /-- The call `sol_blob_unref(blob)`. -/
  | blob_unref (blob : sol_blob)
  /-- The call `sol_flow_send_error_packet(node, code, ...)`. -/
  | error_packet (node : Nat) (code : Int)
  /-- The call `sol_flow_send_bool_packet(node, port, value)`. -/
  | bool_packet (node : Nat) (port : Nat) (value : Bool)
  /-- The call `sol_util_fd_set_flag(fd, O_NONBLOCK)` returned `ret`. -/
  | fd_set_flag (fd : Int) (ret : Int)
  /-- The call `sol_fd_add(fd, flags, watch_cb, output)` returned `handle`. -/
  | fd_add (fd : Int) (flags : Nat) (handle : Option Nat)
  /-- The call `sol_fd_del(handle)`. -/
  | fd_del (handle : Nat)
  deriving DecidableEq

/-! ## The clock and the answers of `write` -/

/-- The `struct timespec`. -/
structure timespec where
  tv_sec : Int
  tv_nsec : Int
  deriving DecidableEq, Repr

/-- Modelled from the spec: `sol_util_timespec_sub` is declared in a header
that is not among the sources; the spec has the drain loop "compute elapsed
wall-clock time since the loop's entry", which on normalised `timespec`
values is the difference with a borrow from the seconds. -/
def sol_util_timespec_sub (t1 t2 : timespec) : timespec :=
  let nsec := t1.tv_nsec - t2.tv_nsec
  let sec := t1.tv_sec - t2.tv_sec
  if nsec < 0 then { tv_sec := sec - 1, tv_nsec := nsec + NSEC_PER_SEC }
  else { tv_sec := sec, tv_nsec := nsec }

/-- What one call of `write` answers: the returned `ssize_t` and, when that is
negative, the value left in `errno`. -/
structure WriteResult where
  r : Int
  errno : Int
  deriving DecidableEq, Repr

/-- What one iteration of the loop of `output_write` observes: the clock read
at its top and the answer of the `write` it issues (unused when the iteration
leaves the loop before writing). -/
structure Tick where
  now : timespec
  wr : WriteResult
  deriving DecidableEq, Repr

/-- The environment of one call of `output_write`: the clock at entry and the
observations of the successive iterations. -/
structure DrainEnv where
  start : timespec
  ticks : List Tick
  deriving DecidableEq, Repr

/-! ## `output_write` -/

/-- How one iteration of the `while` loop ends. -/
inductive Iter where
  /-- The body ran to its end, or hit `continue`: the loop condition is tested again. -/
  | next (data : List write_data) (evs : List Event)
  /-- The body hit `break` with `ret` as given. -/
  | stop (ret : Int) (data : List write_data) (evs : List Event)
  deriving DecidableEq

/-- Lines 87-90: the head entry `d` is dropped and its blob released when
`d->blob->size <= d->offset`. -/
def output_write_done (d : write_data) (rest : List write_data) (ev : Event) : Iter :=
  if d.blob.size ≤ d.offset then Iter.next rest [ev, Event.blob_unref d.blob]
  else Iter.next (d :: rest) [ev]

/-- The time check of lines 68-71. -/
def budget_exceeded (K : Consts) (start now : timespec) : Bool :=
  let elapsed := sol_util_timespec_sub now start
  decide (elapsed.tv_sec > 0) || decide (elapsed.tv_nsec > K.CHUNK_MAX_TIME_NS)

/-- One iteration of the loop of `output_write` (lines 63-90), on the non-empty
queue `d :: rest`. -/
def output_write_body (K : Consts) (fd : Int) (start : timespec) (t : Tick)
    (d : write_data) (rest : List write_data) : Iter :=
  if budget_exceeded K start t.now then Iter.stop 0 (d :: rest) []
  else
    let r := t.wr.r
    let ev := Event.write fd d.blob d.offset r t.wr.errno
    if r > 0 then
      output_write_done { d with offset := (d.offset + r.toNat) % (SIZE_MAX + 1) } rest ev
    else if r < 0 then
      if t.wr.errno = EINTR then Iter.next (d :: rest) [ev]
      else if t.wr.errno = EAGAIN then Iter.stop 0 (d :: rest) [ev]
      else Iter.stop (-t.wr.errno) (d :: rest) [ev]
    else
      output_write_done d rest ev

/-- The loop of `output_write`: `none` when the observations run out while the
loop is still going. -/
def output_write_loop (K : Consts) (fd : Int) (start : timespec) :
    List Tick → List write_data → Option (Int × List write_data × List Event)
  | _, [] => some (0, [], [])
  | [], _ :: _ => none
  | t :: ts, d :: rest =>
    match output_write_body K fd start t d rest with
    | Iter.stop ret data evs => some (ret, data, evs)
    | Iter.next data evs =>
      match output_write_loop K fd start ts data with
      | none => none
      | some (ret, data', evs') => some (ret, data', evs ++ evs')

/-- The function `output_write`: the value returned, the stream afterwards and
the calls made. -/
def output_write (K : Consts) (output : output_data) (env : DrainEnv) :
    Option (Int × output_data × List Event) :=
  match output_write_loop K output.fd env.start env.ticks output.data with
  | none => none
  | some (ret, data, evs) => some (ret, { output with data := data }, evs)

/-! ## `watch_cb` -/

/-- Lines 112-115: every monitor gets the error packet and `true` on the
closed port. -/
def notify_monitors (output : output_data) (code : Int) : List Event :=
  output.monitors.flatMap fun n =>
    [Event.error_packet n code, Event.bool_packet n output.port true]

/-- Lines 117-118 and 206-207: every queued blob is released. -/
def unref_all (data : List write_data) : List Event :=
  data.map fun w => Event.blob_unref w.blob

/-- Lines 107-128 of `watch_cb`, entered with the stream and the value of `err`. -/
def watch_cb_finish (output : output_data) (err : Int) : Bool × output_data × List Event :=
  let (output, evs) :=
    if err < 0 then
      ({ output with data := [] }, notify_monitors output (-err) ++ unref_all output.data)
    else (output, [])
  if output.data.length = 0 then (false, { output with watch := none }, evs)
  else (true, output, evs)

/-- The function `watch_cb`, called by the main loop with the flags that fired. -/
def watch_cb (K : Consts) (output : output_data) (active_flags : Nat) (env : DrainEnv) :
    Option (Bool × output_data × List Event) :=
  if active_flags &&& K.SOL_FD_FLAGS_ERR ≠ 0 then
    some (watch_cb_finish output (-EBADF))
  else
    match output_write K output env with
    | none => none
    | some (err, output, evs) =>
      let (b, output, evs') := watch_cb_finish output err
      some (b, output, evs ++ evs')

/-! ## `watch_start` and `common_process` -/

/-- What the collaborators answer during one call of `common_process`:
whether `sol_vector_append` and `sol_blob_ref` give a non-`NULL` result, what
`sol_util_fd_set_flag` returns and the `errno` it leaves on failure, and what
`sol_fd_add` returns. -/
structure ProcessEnv where
  append_ok : Bool
  ref_ok : Bool
  set_flag_ret : Int
  errno : Int
  fd_add : Option Nat
  deriving DecidableEq, Repr

/-- The packet as `sol_flow_packet_get_blob` sees it: the value it returns
and the blob it stores. -/
structure sol_flow_packet where
  get_blob_ret : Int
  blob : sol_blob
  deriving DecidableEq

/-- The function `watch_start`. -/
def watch_start (K : Consts) (output : output_data) (env : ProcessEnv) :
    Int × output_data × List Event :=
  if output.watch.isSome then (0, output, [])
  else if env.set_flag_ret < 0 then
    (-env.errno, output, [Event.fd_set_flag output.fd env.set_flag_ret])
  else
    let evs := [Event.fd_set_flag output.fd env.set_flag_ret,
      Event.fd_add output.fd (K.SOL_FD_FLAGS_OUT ||| K.SOL_FD_FLAGS_ERR) env.fd_add]
    let output := { output with watch := env.fd_add }
    if output.watch.isNone then (-ENOMEM, output, evs) else (0, output, evs)

/-- The call `sol_vector_del_last(&output->data)`. -/
def del_last (output : output_data) : output_data :=
  { output with data := output.data.dropLast }

/-- The function `common_process`. -/
def common_process (K : Consts) (output : output_data) (packet : sol_flow_packet)
    (env : ProcessEnv) : Int × output_data × List Event :=
  if packet.get_blob_ret < 0 then (packet.get_blob_ret, output, [])
  else if !env.append_ok then (-ENOMEM, output, [])
  else
    let output := { output with data := output.data ++ [{ blob := packet.blob, offset := 0 }] }
    if !env.ref_ok then (-ENOMEM, del_last output, [])
    else
      let (r, output, evs) := watch_start K output env
      if r < 0 then
        (-ENOMEM, del_last output,
          Event.blob_ref packet.blob :: evs ++ [Event.blob_unref packet.blob])
      else (0, output, Event.blob_ref packet.blob :: evs)

/-! ## `common_open`, `common_close`, `common_connect` -/

/-- The function `common_open`; `append_ret` is what `sol_ptr_vector_append`
returns, and a failing append leaves the vector as it was. -/
def common_open (output : output_data) (node : Nat) (append_ret : Int) :
    Int × output_data × List Event :=
  if append_ret < 0 then (-ENOMEM, output, [])
  else (0, { output with monitors := output.monitors ++ [node] }, [])

/-- Lines 191-196: the first entry equal to `node` is deleted. -/
def del_monitor (node : Nat) : List Nat → List Nat
  | [] => []
  | n :: ns => if n = node then ns else n :: del_monitor node ns

/-- The function `common_close`. -/
def common_close (output : output_data) (node : Nat) : output_data × List Event :=
  let output := { output with monitors := del_monitor node output.monitors }
  if output.monitors.length = 0 then
    let evs := match output.watch with
      | some h => [Event.fd_del h]
      | none => []
    ({ output with watch := none, data := [] }, evs ++ unref_all output.data)
  else (output, [])

/-- The function `common_connect`; `flags` is what `fcntl(fd, F_GETFL)` returns
and `send_ret` what `sol_flow_send_bool_packet` returns. -/
def common_connect (output : output_data) (node : Nat) (flags : Int) (send_ret : Int) :
    Int × output_data × List Event :=
  (send_ret, output, [Event.bool_packet node output.port (decide (flags < 0))])

/-! ## Sequences of calls -/

/-- One call into the module, with the answers of its environment. -/
inductive Op where
  /-- The port method `process_*_in_process`: `common_process`. -/
  | process (packet : sol_flow_packet) (env : ProcessEnv)
  /-- The main loop calls `watch_cb`. -/
  | drain (active_flags : Nat) (env : DrainEnv)
  /-- The node method `process_*_open`: `common_open`. -/
  | attach (node : Nat) (append_ret : Int)
  /-- The node method `process_*_close`: `common_close`. -/
  | detach (node : Nat)
  /-- The port method `process_*_closed_connect`: `common_connect`. -/
  | connect (node : Nat) (flags : Int) (send_ret : Int)
  deriving DecidableEq

/-- The stream after one call and the calls it made; `none` when a drain runs
out of observations. -/
def step (K : Consts) (output : output_data) : Op → Option (output_data × List Event)
  | Op.process packet env =>
    let (_, output, evs) := common_process K output packet env
    some (output, evs)
  | Op.drain active_flags env =>
    match watch_cb K output active_flags env with
    | none => none
    | some (_, output, evs) => some (output, evs)
  | Op.attach node append_ret =>
    let (_, output, evs) := common_open output node append_ret
    some (output, evs)
  | Op.detach node => some (common_close output node)
  | Op.connect node flags send_ret =>
    let (_, output, evs) := common_connect output node flags send_ret
    some (output, evs)

/-- The stream after a sequence of calls and all the calls made, in order. -/
def run (K : Consts) : output_data → List Op → Option (output_data × List Event)
  | output, [] => some (output, [])
  | output, op :: ops =>
    match step K output op with
    | none => none
    | some (output', evs) =>
      match run K output' ops with
      | none => none
      | some (output'', evs') => some (output'', evs ++ evs')

/-! ## Observations on a list of calls -/

/-- The codes of the error packets sent to `node`, in order. -/
def errors_to (node : Nat) (evs : List Event) : List Int :=
  evs.filterMap fun ev =>
    match ev with
    | Event.error_packet n code => if n = node then some code else none
    | _ => none

/-- The boolean packets sent to `node` (port and value), in order. -/
def bools_to (node : Nat) (evs : List Event) : List (Nat × Bool) :=
  evs.filterMap fun ev =>
    match ev with
    | Event.bool_packet n port value => if n = node then some (port, value) else none
    | _ => none

/-- Whether the call is a `write`. -/
def Event.is_write : Event → Bool
  | Event.write _ _ _ _ _ => true
  | _ => false

/-- Whether the call sends a packet to a node. -/
def Event.is_packet : Event → Bool
  | Event.error_packet _ _ => true
  | Event.bool_packet _ _ _ => true
  | _ => false

/-- The bytes a call put on the descriptor: a `write` that returned `r > 0`
took the first `r` of the bytes it was offered. -/
def Event.emitted : Event → List Nat
  | Event.write _ blob offset r _ =>
    if r > 0 then (blob.mem.drop offset).take r.toNat else []
  | _ => []

/-- All the bytes put on the descriptor, in order. -/
def emitted (evs : List Event) : List Nat := evs.flatMap Event.emitted

/-- The bytes still to be written: `buffer[offset..length)` of every queued
entry, in queue order. -/
def pending (data : List write_data) : List Nat :=
  data.flatMap fun w => w.blob.mem.drop w.offset

/-- The number of references to `b` acquired. -/
def refs (b : sol_blob) (evs : List Event) : Nat := evs.count (Event.blob_ref b)

/-- The number of references to `b` released. -/
def unrefs (b : sol_blob) (evs : List Event) : Nat := evs.count (Event.blob_unref b)

/-- The number of queue entries that hold `b`. -/
def held (b : sol_blob) (data : List write_data) : Nat :=
  (data.filter fun w => decide (w.blob = b)).length

/-- The invariant of the stream: the watch is armed exactly when the queue is
not empty. -/
def armed_iff_work (output : output_data) : Prop :=
  output.watch ≠ none ↔ output.data ≠ []

/-- The loop of `output_write` at the top of an iteration: the queue and the
calls made once the iterations observing `ticks` have all gone back to the loop
test; `none` when the loop is left before that. -/
def output_write_after (K : Consts) (fd : Int) (start : timespec) :
    List Tick → List write_data → Option (List write_data × List Event)
  | [], data => some (data, [])
  | _ :: _, [] => none
  | t :: ts, d :: rest =>
    match output_write_body K fd start t d rest with
    | Iter.stop _ _ _ => none
    | Iter.next data evs =>
      match output_write_after K fd start ts data with
      | none => none
      | some (data', evs') => some (data', evs ++ evs')

/-- The head entry after a `write` that returned `r`: line 75 when `r > 0`,
untouched otherwise. -/
def advance (d : write_data) (r : Int) : write_data :=
  if r > 0 then { d with offset := (d.offset + r.toNat) % (SIZE_MAX + 1) } else d

/-- The `write` call that an iteration observing `t` issues for the head `d`. -/
def write_event (fd : Int) (t : Tick) (d : write_data) : Event :=
  Event.write fd d.blob d.offset t.wr.r t.wr.errno

/-- Whether the call is one to the main loop or to `fcntl`: it touches neither
bytes, blobs nor nodes. -/
def Event.is_fd : Event → Bool
  | Event.fd_set_flag _ _ => true
  | Event.fd_add _ _ _ => true
  | Event.fd_del _ => true
  | _ => false

/-- Whether a `write` returned no more than the number of bytes it was asked
to write, `blob->size - offset`. -/
def Event.within_request : Event → Bool
  | Event.write _ blob offset r _ => decide (r ≤ ((blob.size - offset : Nat) : Int))
  | _ => true

/-- The value of `err` at line 107 of `watch_cb`. -/
def watch_cb_err (K : Consts) (output : output_data) (active_flags : Nat) (env : DrainEnv) :
    Option Int :=
  if active_flags &&& K.SOL_FD_FLAGS_ERR ≠ 0 then some (-EBADF)
  else
    match output_write K output env with
    | none => none
    | some (err, _, _) => some err

/-- The condition under which a call keeps every queued byte on its way to the
descriptor: a drain does not take the fatal path and each of its writes returns
at most what was asked; a detach does not leave the monitor list empty. -/
def Op.keeps_bytes (K : Consts) (output : output_data) : Op → Bool
  | Op.drain active_flags env =>
    match watch_cb_err K output active_flags env, watch_cb K output active_flags env with
    | some err, some (_, _, evs) => decide (¬ err < 0) && evs.all Event.within_request
    | _, _ => false
  | Op.detach node => !(common_close output node).1.monitors.isEmpty
  | _ => true

/-- The blob a call enqueued, if it did. -/
def Op.enqueued (K : Consts) (output : output_data) : Op → List sol_blob
  | Op.process packet env =>
    if (common_process K output packet env).1 = 0 then [packet.blob] else []
  | _ => []

/-- The condition `Op.keeps_bytes` along a sequence of calls. -/
def keeps_bytes (K : Consts) : output_data → List Op → Bool
  | _, [] => true
  | output, op :: ops =>
    op.keeps_bytes K output &&
      match step K output op with
      | none => false
      | some (output', _) => keeps_bytes K output' ops

/-- The blobs enqueued along a sequence of calls, in order. -/
def enqueued (K : Consts) : output_data → List Op → List sol_blob
  | _, [] => []
  | output, op :: ops =>
    op.enqueued K output ++
      match step K output op with
      | none => []
      | some (output', _) => enqueued K output' ops

/-- Whether the call is a `sol_blob_unref`. -/
def Event.is_unref : Event → Bool
  | Event.blob_unref _ => true
  | _ => false

/-- The stream after the pristine `stdout_data` took one blob with every
collaborator succeeding and `sol_fd_add` returning `handle`: one entry queued,
the watch armed, no node attached. -/
def orphan_work (K : Consts) (blob : sol_blob) (handle : Nat) : output_data :=
  (common_process K (stdout_data K) { get_blob_ret := 0, blob := blob }
    { append_ok := true, ref_ok := true, set_flag_ret := 0, errno := 0,
      fd_add := some handle }).2.1

/-- The monitor list after a call, as `common_open` and `common_close` leave
it; the other calls do not touch it. -/
def Op.monitors_after (output : output_data) : Op → List Nat
  | Op.attach node append_ret =>
    if append_ret < 0 then output.monitors else output.monitors ++ [node]
  | Op.detach node => del_monitor node output.monitors
  | _ => output.monitors

/-- Whether every attach in a sequence of calls is of a node that is not in the
monitor list at that time. -/
def attaches_fresh (K : Consts) : output_data → List Op → Bool
  | _, [] => true
  | output, op :: ops =>
    (match op with
      | Op.attach node _ => decide (node ∉ output.monitors)
      | _ => true) &&
      match step K output op with
      | none => false
      | some (output', _) => attaches_fresh K output' ops

/-- Whether every `common_process` in a sequence of calls is made while at
least one node is attached. -/
def enqueues_attached (K : Consts) : output_data → List Op → Bool
  | _, [] => true
  | output, op :: ops =>
    (match op with
      | Op.process _ _ => !output.monitors.isEmpty
      | _ => true) &&
      match step K output op with
      | none => false
      | some (output', _) => enqueues_attached K output' ops

/-- The stream holds no work when no node is attached: an empty monitor list
comes with an empty queue and a `NULL` watch handle. -/
def idle_without_monitors (output : output_data) : Prop :=
  output.monitors = [] → output.data = [] ∧ output.watch = none

/-- What a call amounts to once its `write` calls are summed up as the bytes
they put on the descriptor: the value returned, the state left, those bytes,
and the calls other than `write` (releases, packets), in order. -/
def outcome {α β : Type} (res : α × β × List Event) : α × β × List Nat × List Event :=
  (res.1, res.2.1, emitted res.2.2, res.2.2.filter fun ev => !ev.is_write)

/-- The number of iterations of the loop of `output_write` that run on the
given observations. -/
def output_write_iterations (K : Consts) (fd : Int) (start : timespec) :
    List Tick → List write_data → Nat
  | _, [] => 0
  | [], _ :: _ => 0
  | t :: ts, d :: rest =>
    match output_write_body K fd start t d rest with
    | Iter.stop _ _ _ => 1
    | Iter.next data _ => 1 + output_write_iterations K fd start ts data

/-- The answer of `write` makes the loop advance on the head `d`: a positive
count no larger than the bytes asked for, a zero count when no byte is left, or
a failure other than `EINTR`. -/
def Tick.progresses (t : Tick) (d : write_data) : Bool :=
  (decide (0 < t.wr.r) && decide (t.wr.r ≤ ((d.blob.size - d.offset : Nat) : Int))) ||
  (decide (t.wr.r = 0) && decide (d.blob.size ≤ d.offset)) ||
  (decide (t.wr.r < 0) && decide (t.wr.errno ≠ EINTR))

/-- The answer of `write` leaves the loop where it is on the head `d`: a zero
count while bytes are left, or `EINTR`. -/
def Tick.stalls (t : Tick) (d : write_data) : Bool :=
  (decide (t.wr.r = 0) && decide (d.offset < d.blob.size)) ||
  (decide (t.wr.r < 0) && decide (t.wr.errno = EINTR))

/-- Whether every `write` issued by the loop on the given observations makes
it advance. -/
def writes_progress (K : Consts) (fd : Int) (start : timespec) :
    List Tick → List write_data → Bool
  | _, [] => true
  | [], _ :: _ => true
  | t :: ts, d :: rest =>
    (budget_exceeded K start t.now || t.progresses d) &&
      match output_write_body K fd start t d rest with
      | Iter.stop _ _ _ => true
      | Iter.next data _ => writes_progress K fd start ts data

/-- The unwritten bytes of the queue plus the number of its entries. -/
def work_left (data : List write_data) : Nat :=
  (pending data).length + data.length

/-- Every queued entry has written no more than its blob holds. -/
def offsets_in_range (data : List write_data) : Prop :=
  ∀ w ∈ data, w.offset ≤ w.blob.size

/-! ## Sample values -/

/-- Sample constants: a budget of 20 ms, the flag bits of `sol-mainloop.h`. -/
def K0 : Consts :=
  { CHUNK_MAX_TIME_NS := 20000000, SOL_FD_FLAGS_OUT := 2, SOL_FD_FLAGS_ERR := 8,
    STDOUT__OUT__CLOSED := 0, STDERR__OUT__CLOSED := 0 }

/-- A blob of three bytes. -/
def blobA : sol_blob := { id := 1, mem := [104, 105, 10], size_le := by decide }

/-- A blob of two bytes. -/
def blobB : sol_blob := { id := 2, mem := [111, 107], size_le := by decide }

/-- A blob packet carrying `blobA`. -/
def packetA : sol_flow_packet := { get_blob_ret := 0, blob := blobA }

/-- A blob packet carrying `blobB`. -/
def packetB : sol_flow_packet := { get_blob_ret := 0, blob := blobB }

/-- Every collaborator succeeds; `sol_fd_add` returns the handle 7. -/
def env_ok : ProcessEnv :=
  { append_ok := true, ref_ok := true, set_flag_ret := 0, errno := 0, fd_add := some 7 }

/-- Setting `O_NONBLOCK` fails with `EBADF`. -/
def env_set_flag_fails : ProcessEnv :=
  { append_ok := true, ref_ok := true, set_flag_ret := -1, errno := 9, fd_add := some 7 }

/-- The clock value zero. -/
def t0 : timespec := { tv_sec := 0, tv_nsec := 0 }

/-- An iteration at time zero whose `write` returns `r`. -/
def tick_ok (r : Int) : Tick := { now := t0, wr := { r := r, errno := 0 } }

/-- An iteration at time zero whose `write` fails with `errno`. -/
def tick_err (errno : Int) : Tick := { now := t0, wr := { r := -1, errno := errno } }

/-- An iteration one second after time zero. -/
def tick_late : Tick := { now := { tv_sec := 1, tv_nsec := 0 }, wr := { r := 1, errno := 0 } }

/-- A blob of ten bytes. -/
def blob10 : sol_blob :=
  { id := 3, mem := [48, 49, 50, 51, 52, 53, 54, 55, 56, 57], size_le := by decide }

/-- A blob packet carrying `blob10`. -/
def packet10 : sol_flow_packet := { get_blob_ret := 0, blob := blob10 }

/-- The idle `stdout` stream with node 1 attached. -/
def idle1 : output_data :=
  { port := 0, fd := 1, data := [], monitors := [1], watch := none }

/-- The stream `stdout_data` with `blobA` queued, node 1 attached, watch 7 armed. -/
def busyA : output_data :=
  { port := 0, fd := 1, data := [{ blob := blobA, offset := 0 }], monitors := [1], watch := some 7 }

/-! ## The tail of `watch_cb` -/

theorem watch_cb_finish_fatal (output : output_data) (err : Int) (h : err < 0) :
    watch_cb_finish output err =
      (false, { output with data := [], watch := none },
        notify_monitors output (-err) ++ unref_all output.data) := by
  simp [watch_cb_finish, h]

theorem watch_cb_finish_idle (output : output_data) (err : Int) (h : ¬ err < 0)
    (hd : output.data = []) :
    watch_cb_finish output err = (false, { output with watch := none }, []) := by
  simp [watch_cb_finish, h, hd]

theorem watch_cb_finish_busy (output : output_data) (err : Int) (h : ¬ err < 0)
    (hd : output.data ≠ []) :
    watch_cb_finish output err = (true, output, []) := by
  simp [watch_cb_finish, h, hd]

theorem watch_cb_finish_cases (output : output_data) (err : Int) :
    (watch_cb_finish output err).2.1.monitors = output.monitors ∧
    (watch_cb_finish output err).2.1.port = output.port ∧
    (watch_cb_finish output err).2.1.fd = output.fd ∧
    (((watch_cb_finish output err).1 = false ∧ (watch_cb_finish output err).2.1.data = [] ∧
        (watch_cb_finish output err).2.1.watch = none) ∨
      ((watch_cb_finish output err).1 = true ∧ (watch_cb_finish output err).2.1.data ≠ [] ∧
        (watch_cb_finish output err).2.1 = output)) := by
  by_cases h : err < 0
  · simp [watch_cb_finish_fatal output err h]
  · by_cases hd : output.data = []
    · simp [watch_cb_finish_idle output err h hd, hd]
    · simp [watch_cb_finish_busy output err h hd, hd]

/-! ## The shape of `output_write` -/

theorem output_write_data (K : Consts) (output : output_data) (env : DrainEnv) (ret : Int)
    (output' : output_data) (evs : List Event)
    (h : output_write K output env = some (ret, output', evs)) :
    output' = { output with data := output'.data } ∧
    output_write_loop K output.fd env.start env.ticks output.data =
      some (ret, output'.data, evs) := by
  unfold output_write at h
  split at h
  · simp at h
  · rename_i r d e heq
    simp only [Option.some.injEq, Prod.mk.injEq] at h
    obtain ⟨h1, h2, h3⟩ := h
    subst h1 h2 h3
    exact ⟨rfl, heq⟩

theorem watch_cb_err_flag (K : Consts) (output : output_data) (flags : Nat) (env : DrainEnv)
    (h : flags &&& K.SOL_FD_FLAGS_ERR ≠ 0) :
    watch_cb K output flags env =
      some (false, { output with data := [], watch := none },
        notify_monitors output EBADF ++ unref_all output.data) := by
  have hneg : -EBADF < 0 := by decide
  simp [watch_cb, h, watch_cb_finish_fatal output (-EBADF) hneg]

theorem watch_cb_write (K : Consts) (output : output_data) (flags : Nat) (env : DrainEnv)
    (h : flags &&& K.SOL_FD_FLAGS_ERR = 0) (ret : Int) (data : List write_data)
    (evs : List Event)
    (hl : output_write_loop K output.fd env.start env.ticks output.data = some (ret, data, evs)) :
    watch_cb K output flags env =
      some ((watch_cb_finish { output with data := data } ret).1,
        (watch_cb_finish { output with data := data } ret).2.1,
        evs ++ (watch_cb_finish { output with data := data } ret).2.2) := by
  simp [watch_cb, h, output_write, hl]

theorem watch_cb_some (K : Consts) (output : output_data) (flags : Nat) (env : DrainEnv)
    (b : Bool) (output' : output_data) (evs : List Event)
    (h : watch_cb K output flags env = some (b, output', evs)) :
    (flags &&& K.SOL_FD_FLAGS_ERR ≠ 0 ∧
      (b, output', evs) = watch_cb_finish output (-EBADF)) ∨
    (flags &&& K.SOL_FD_FLAGS_ERR = 0 ∧ ∃ ret data evs1,
      output_write_loop K output.fd env.start env.ticks output.data = some (ret, data, evs1) ∧
      b = (watch_cb_finish { output with data := data } ret).1 ∧
      output' = (watch_cb_finish { output with data := data } ret).2.1 ∧
      evs = evs1 ++ (watch_cb_finish { output with data := data } ret).2.2) := by
  by_cases hf : flags &&& K.SOL_FD_FLAGS_ERR = 0
  · right
    refine ⟨hf, ?_⟩
    cases hl : output_write_loop K output.fd env.start env.ticks output.data with
    | none => simp [watch_cb, hf, output_write, hl] at h
    | some res =>
      obtain ⟨ret, data, evs1⟩ := res
      rw [watch_cb_write K output flags env hf ret data evs1 hl] at h
      simp only [Option.some.injEq, Prod.mk.injEq] at h
      exact ⟨ret, data, evs1, rfl, h.1.symm, h.2.1.symm, h.2.2.symm⟩
  · left
    refine ⟨hf, ?_⟩
    simp only [watch_cb, hf, ne_eq, not_false_eq_true, if_true, Option.some.injEq] at h
    exact h.symm

/-! ## One iteration of the loop -/

theorem advance_blob (d : write_data) (r : Int) : (advance d r).blob = d.blob := by
  unfold advance
  split <;> rfl

theorem body_late (K : Consts) (fd : Int) (start : timespec) (t : Tick)
    (d : write_data) (rest : List write_data) (hb : budget_exceeded K start t.now = true) :
    output_write_body K fd start t d rest = Iter.stop 0 (d :: rest) [] := by
  simp [output_write_body, hb]

theorem body_wrote (K : Consts) (fd : Int) (start : timespec) (t : Tick)
    (d : write_data) (rest : List write_data) (hb : budget_exceeded K start t.now = false)
    (hr : 0 ≤ t.wr.r) :
    output_write_body K fd start t d rest =
      output_write_done (advance d t.wr.r) rest (write_event fd t d) := by
  by_cases hpos : t.wr.r > 0
  · simp [output_write_body, hb, hpos, advance, write_event]
  · have hneg : ¬ t.wr.r < 0 := by omega
    simp [output_write_body, hb, hpos, hneg, advance, write_event]

theorem body_eintr (K : Consts) (fd : Int) (start : timespec) (t : Tick)
    (d : write_data) (rest : List write_data) (hb : budget_exceeded K start t.now = false)
    (hr : t.wr.r < 0) (he : t.wr.errno = EINTR) :
    output_write_body K fd start t d rest = Iter.next (d :: rest) [write_event fd t d] := by
  have hpos : ¬ t.wr.r > 0 := by omega
  simp [output_write_body, hb, hpos, hr, he, write_event]

theorem body_eagain (K : Consts) (fd : Int) (start : timespec) (t : Tick)
    (d : write_data) (rest : List write_data) (hb : budget_exceeded K start t.now = false)
    (hr : t.wr.r < 0) (he : t.wr.errno = EAGAIN) :
    output_write_body K fd start t d rest = Iter.stop 0 (d :: rest) [write_event fd t d] := by
  have hpos : ¬ t.wr.r > 0 := by omega
  have hne : ¬ EAGAIN = EINTR := by decide
  simp [output_write_body, hb, hpos, hr, he, hne, write_event]

theorem body_fatal (K : Consts) (fd : Int) (start : timespec) (t : Tick)
    (d : write_data) (rest : List write_data) (hb : budget_exceeded K start t.now = false)
    (hr : t.wr.r < 0) (h1 : t.wr.errno ≠ EINTR) (h2 : t.wr.errno ≠ EAGAIN) :
    output_write_body K fd start t d rest =
      Iter.stop (-t.wr.errno) (d :: rest) [write_event fd t d] := by
  have hpos : ¬ t.wr.r > 0 := by omega
  simp [output_write_body, hb, hpos, hr, h1, h2, write_event]

theorem done_drop (d : write_data) (rest : List write_data) (ev : Event)
    (h : d.blob.size ≤ d.offset) :
    output_write_done d rest ev = Iter.next rest [ev, Event.blob_unref d.blob] := by
  simp [output_write_done, h]

theorem done_keep (d : write_data) (rest : List write_data) (ev : Event)
    (h : d.offset < d.blob.size) :
    output_write_done d rest ev = Iter.next (d :: rest) [ev] := by
  have h' : ¬ d.blob.size ≤ d.offset := by omega
  simp [output_write_done, h']

theorem output_write_body_stop (K : Consts) (fd : Int) (start : timespec) (t : Tick)
    (d : write_data) (rest : List write_data) (ret : Int) (data : List write_data)
    (evs : List Event) (h : output_write_body K fd start t d rest = Iter.stop ret data evs) :
    data = d :: rest ∧
    ((budget_exceeded K start t.now = true ∧ ret = 0 ∧ evs = []) ∨
     (budget_exceeded K start t.now = false ∧ t.wr.r < 0 ∧ evs = [write_event fd t d] ∧
        ((t.wr.errno = EAGAIN ∧ ret = 0) ∨
         (t.wr.errno ≠ EINTR ∧ t.wr.errno ≠ EAGAIN ∧ ret = -t.wr.errno)))) := by
  cases hb : budget_exceeded K start t.now with
  | true =>
    rw [body_late K fd start t d rest hb, Iter.stop.injEq] at h
    obtain ⟨h1, h2, h3⟩ := h
    simp [← h1, ← h2, ← h3]
  | false =>
    by_cases hr : 0 ≤ t.wr.r
    · rw [body_wrote K fd start t d rest hb hr] at h
      by_cases hs : (advance d t.wr.r).blob.size ≤ (advance d t.wr.r).offset
      · rw [done_drop _ _ _ hs] at h
        cases h
      · rw [done_keep _ _ _ (by omega)] at h
        cases h
    · have hneg : t.wr.r < 0 := by omega
      by_cases h1 : t.wr.errno = EINTR
      · rw [body_eintr K fd start t d rest hb hneg h1] at h
        cases h
      · by_cases h2 : t.wr.errno = EAGAIN
        · rw [body_eagain K fd start t d rest hb hneg h2, Iter.stop.injEq] at h
          obtain ⟨e1, e2, e3⟩ := h
          simp [← e1, ← e2, ← e3, hneg, h2]
        · rw [body_fatal K fd start t d rest hb hneg h1 h2, Iter.stop.injEq] at h
          obtain ⟨e1, e2, e3⟩ := h
          simp [← e1, ← e2, ← e3, hneg, h1, h2]

theorem output_write_body_next (K : Consts) (fd : Int) (start : timespec) (t : Tick)
    (d : write_data) (rest : List write_data) (data : List write_data)
    (evs : List Event) (h : output_write_body K fd start t d rest = Iter.next data evs) :
    budget_exceeded K start t.now = false ∧
    ((t.wr.r < 0 ∧ t.wr.errno = EINTR ∧ data = d :: rest ∧ evs = [write_event fd t d]) ∨
     (0 ≤ t.wr.r ∧ (advance d t.wr.r).blob.size ≤ (advance d t.wr.r).offset ∧ data = rest ∧
        evs = [write_event fd t d, Event.blob_unref d.blob]) ∨
     (0 ≤ t.wr.r ∧ (advance d t.wr.r).offset < (advance d t.wr.r).blob.size ∧
        data = advance d t.wr.r :: rest ∧ evs = [write_event fd t d])) := by
  cases hb : budget_exceeded K start t.now with
  | true =>
    rw [body_late K fd start t d rest hb] at h
    cases h
  | false =>
    refine ⟨rfl, ?_⟩
    by_cases hr : 0 ≤ t.wr.r
    · rw [body_wrote K fd start t d rest hb hr] at h
      by_cases hs : (advance d t.wr.r).blob.size ≤ (advance d t.wr.r).offset
      · rw [done_drop _ _ _ hs, Iter.next.injEq, advance_blob] at h
        exact Or.inr (Or.inl ⟨hr, hs, h.1.symm, h.2.symm⟩)
      · have hs' : (advance d t.wr.r).offset < (advance d t.wr.r).blob.size := by omega
        rw [done_keep _ _ _ hs', Iter.next.injEq] at h
        exact Or.inr (Or.inr ⟨hr, hs', h.1.symm, h.2.symm⟩)
    · have hneg : t.wr.r < 0 := by omega
      by_cases h1 : t.wr.errno = EINTR
      · rw [body_eintr K fd start t d rest hb hneg h1, Iter.next.injEq] at h
        exact Or.inl ⟨hneg, h1, h.1.symm, h.2.symm⟩
      · by_cases h2 : t.wr.errno = EAGAIN
        · rw [body_eagain K fd start t d rest hb hneg h2] at h
          cases h
        · rw [body_fatal K fd start t d rest hb hneg h1 h2] at h
          cases h

/-- Induction over the iterations of the loop of `output_write`. -/
theorem output_write_loop_rec (K : Consts) (fd : Int) (start : timespec)
    (P : List write_data → Int → List write_data → List Event → Prop)
    (h_nil : P [] 0 [] [])
    (h_stop : ∀ t d rest ret data evs,
      output_write_body K fd start t d rest = Iter.stop ret data evs → P (d :: rest) ret data evs)
    (h_next : ∀ t d rest q e ret data evs,
      output_write_body K fd start t d rest = Iter.next q e → P q ret data evs →
      P (d :: rest) ret data (e ++ evs)) :
    ∀ ticks data ret data' evs,
      output_write_loop K fd start ticks data = some (ret, data', evs) → P data ret data' evs := by
  intro ticks
  induction ticks with
  | nil =>
    intro data ret data' evs h
    cases data with
    | nil =>
      simp only [output_write_loop, Option.some.injEq, Prod.mk.injEq] at h
      obtain ⟨h1, h2, h3⟩ := h
      subst h1 h2 h3
      exact h_nil
    | cons d rest => simp [output_write_loop] at h
  | cons t ts ih =>
    intro data ret data' evs h
    cases data with
    | nil =>
      simp only [output_write_loop, Option.some.injEq, Prod.mk.injEq] at h
      obtain ⟨h1, h2, h3⟩ := h
      subst h1 h2 h3
      exact h_nil
    | cons d rest =>
      simp only [output_write_loop] at h
      cases hb : output_write_body K fd start t d rest with
      | stop ret1 data1 evs1 =>
        rw [hb] at h
        simp only [Option.some.injEq, Prod.mk.injEq] at h
        obtain ⟨h1, h2, h3⟩ := h
        subst h1 h2 h3
        exact h_stop t d rest _ _ _ hb
      | next q e =>
        rw [hb] at h
        cases hl : output_write_loop K fd start ts q with
        | none => simp [hl] at h
        | some res =>
          obtain ⟨ret2, data2, evs2⟩ := res
          simp only [hl, Option.some.injEq, Prod.mk.injEq] at h
          obtain ⟨h1, h2, h3⟩ := h
          subst h1 h2 h3
          exact h_next t d rest q e _ _ _ hb (ih q _ _ _ hl)

/-! ## What the loop of `output_write` can do -/

theorem errors_to_append (n : Nat) (xs ys : List Event) :
    errors_to n (xs ++ ys) = errors_to n xs ++ errors_to n ys := by
  simp [errors_to, List.filterMap_append]

theorem bools_to_append (n : Nat) (xs ys : List Event) :
    bools_to n (xs ++ ys) = bools_to n xs ++ bools_to n ys := by
  simp [bools_to, List.filterMap_append]

theorem no_packets_silent (n : Nat) (evs : List Event)
    (h : ∀ ev ∈ evs, ev.is_packet = false) : errors_to n evs = [] ∧ bools_to n evs = [] := by
  induction evs with
  | nil => simp [errors_to, bools_to]
  | cons ev evs ih =>
    have h1 := h ev (List.mem_cons_self _ _)
    have h2 := ih (fun x hx => h x (List.mem_cons_of_mem _ hx))
    unfold errors_to bools_to at h2 ⊢
    cases ev <;> simp_all [Event.is_packet]

theorem unref_all_quiet (data : List write_data) :
    ∀ ev ∈ unref_all data, ev.is_packet = false ∧ ev.is_write = false := by
  intro ev hev
  simp only [unref_all, List.mem_map] at hev
  obtain ⟨w, _, rfl⟩ := hev
  exact ⟨rfl, rfl⟩

theorem notify_monitors_quiet (output : output_data) (code : Int) :
    ∀ ev ∈ notify_monitors output code, ev.is_write = false := by
  intro ev hev
  simp only [notify_monitors, List.mem_flatMap, List.mem_cons, List.mem_singleton,
    List.not_mem_nil, or_false] at hev
  obtain ⟨n, _, h | h⟩ := hev <;> subst h <;> rfl

theorem errors_to_notify (output : output_data) (code : Int) (n : Nat) :
    errors_to n (notify_monitors output code) =
      List.replicate (output.monitors.count n) code := by
  unfold notify_monitors
  induction output.monitors with
  | nil => simp [errors_to]
  | cons m ms ih =>
    rw [List.flatMap_cons, errors_to_append, ih]
    by_cases hm : m = n
    · subst hm
      simp [errors_to, List.replicate_succ]
    · have hc : List.count n (m :: ms) = List.count n ms := by
        simp [List.count_cons, hm]
      simp [errors_to, hm, hc]

theorem bools_to_notify (output : output_data) (code : Int) (n : Nat) :
    bools_to n (notify_monitors output code) =
      List.replicate (output.monitors.count n) (output.port, true) := by
  unfold notify_monitors
  induction output.monitors with
  | nil => simp [bools_to]
  | cons m ms ih =>
    rw [List.flatMap_cons, bools_to_append, ih]
    by_cases hm : m = n
    · subst hm
      simp [bools_to, List.replicate_succ]
    · have hc : List.count n (m :: ms) = List.count n ms := by
        simp [List.count_cons, hm]
      simp [bools_to, hm, hc]

/-- The loop only writes and releases: it sends no packet; it never makes an
empty queue non-empty; and a `write` that failed with a code other than
`EINTR` and `EAGAIN` fixes the value returned. -/
theorem output_write_loop_facts (K : Consts) (fd : Int) (start : timespec)
    (ticks : List Tick) (data : List write_data) (ret : Int) (data' : List write_data)
    (evs : List Event)
    (h : output_write_loop K fd start ticks data = some (ret, data', evs)) :
    (∀ ev ∈ evs, ev.is_packet = false) ∧
    (data = [] → data' = []) ∧
    (∀ fd' blob off r e, Event.write fd' blob off r e ∈ evs → r < 0 → e ≠ EINTR →
      e ≠ EAGAIN → ret = -e) := by
  refine output_write_loop_rec K fd start
    (fun data ret data' evs =>
      (∀ ev ∈ evs, ev.is_packet = false) ∧ (data = [] → data' = []) ∧
      (∀ fd' blob off r e, Event.write fd' blob off r e ∈ evs → r < 0 → e ≠ EINTR →
        e ≠ EAGAIN → ret = -e))
    ?_ ?_ ?_ ticks data ret data' evs h
  · simp
  · intro t d rest ret data evs hb
    obtain ⟨-, hcase⟩ := output_write_body_stop K fd start t d rest ret data evs hb
    rcases hcase with ⟨-, -, rfl⟩ | ⟨-, hr, rfl, hcode⟩
    · simp
    · refine ⟨by simp [write_event, Event.is_packet], by simp, ?_⟩
      intro fd' blob off r e hmem hneg h1 h2
      simp only [write_event, List.mem_singleton, Event.write.injEq] at hmem
      obtain ⟨-, -, -, rfl, rfl⟩ := hmem
      rcases hcode with ⟨h3, -⟩ | ⟨-, -, h5⟩
      · exact absurd h3 h2
      · exact h5
  · intro t d rest q e ret data evs hb ih
    obtain ⟨ih1, -, ih3⟩ := ih
    obtain ⟨-, hcase⟩ := output_write_body_next K fd start t d rest q e hb
    have he : (∀ ev ∈ e, ev.is_packet = false) ∧
        (∀ fd' blob off r c, Event.write fd' blob off r c ∈ e → r < 0 → c ≠ EINTR → False) := by
      rcases hcase with ⟨hr, hc, -, rfl⟩ | ⟨hr, -, -, rfl⟩ | ⟨hr, -, -, rfl⟩
      · refine ⟨by simp [write_event, Event.is_packet], ?_⟩
        intro fd' blob off r c hmem _ h1
        simp only [write_event, List.mem_singleton, Event.write.injEq] at hmem
        obtain ⟨-, -, -, -, rfl⟩ := hmem
        exact h1 hc
      · refine ⟨by simp [write_event, Event.is_packet], ?_⟩
        intro fd' blob off r c hmem hneg _
        simp only [write_event, List.mem_cons, List.mem_singleton, Event.write.injEq,
          List.not_mem_nil, or_false, reduceCtorEq] at hmem
        omega
      · refine ⟨by simp [write_event, Event.is_packet], ?_⟩
        intro fd' blob off r c hmem hneg _
        simp only [write_event, List.mem_singleton, Event.write.injEq] at hmem
        omega
    refine ⟨?_, by simp, ?_⟩
    · intro ev hev
      rcases List.mem_append.mp hev with h1 | h1
      · exact he.1 ev h1
      · exact ih1 ev h1
    · intro fd' blob off r c hmem hneg h1 h2
      rcases List.mem_append.mp hmem with h3 | h3
      · exact (he.2 fd' blob off r c h3 hneg h1).elim
      · exact ih3 fd' blob off r c h3 hneg h1 h2

/-- Running the loop from the top of a later iteration gives the rest of the run. -/
theorem output_write_loop_append (K : Consts) (fd : Int) (start : timespec) :
    ∀ (pre : List Tick) (data : List write_data) (q : List write_data) (evs0 : List Event)
      (post : List Tick),
      output_write_after K fd start pre data = some (q, evs0) →
      output_write_loop K fd start (pre ++ post) data =
        match output_write_loop K fd start post q with
        | none => none
        | some (ret, data', evs') => some (ret, data', evs0 ++ evs') := by
  intro pre
  induction pre with
  | nil =>
    intro data q evs0 post h
    simp only [output_write_after, Option.some.injEq, Prod.mk.injEq] at h
    obtain ⟨rfl, rfl⟩ := h
    cases hl : output_write_loop K fd start post data with
    | none => simpa using hl
    | some res => simpa using hl
  | cons t ts ih =>
    intro data q evs0 post h
    cases data with
    | nil => simp [output_write_after] at h
    | cons d rest =>
      simp only [output_write_after] at h
      cases hb : output_write_body K fd start t d rest with
      | stop ret1 data1 evs1 => simp [hb] at h
      | next q1 e1 =>
        rw [hb] at h
        cases ha : output_write_after K fd start ts q1 with
        | none => simp [ha] at h
        | some res =>
          obtain ⟨q2, e2⟩ := res
          simp only [ha, Option.some.injEq, Prod.mk.injEq] at h
          obtain ⟨rfl, rfl⟩ := h
          have := ih q1 q2 e2 post ha
          simp only [List.cons_append, output_write_loop, hb, List.append_eq]
          rw [this]
          cases hl : output_write_loop K fd start post q2 with
          | none => simp
          | some res => simp [List.append_assoc]

theorem output_write_after_quiet (K : Consts) (fd : Int) (start : timespec) :
    ∀ (pre : List Tick) (data : List write_data) (q : List write_data) (evs0 : List Event),
      output_write_after K fd start pre data = some (q, evs0) →
      ∀ ev ∈ evs0, ev.is_packet = false := by
  intro pre
  induction pre with
  | nil =>
    intro data q evs0 h
    simp only [output_write_after, Option.some.injEq, Prod.mk.injEq] at h
    obtain ⟨-, rfl⟩ := h
    simp
  | cons t ts ih =>
    intro data q evs0 h
    cases data with
    | nil => simp [output_write_after] at h
    | cons d rest =>
      simp only [output_write_after] at h
      cases hb : output_write_body K fd start t d rest with
      | stop ret1 data1 evs1 => simp [hb] at h
      | next q1 e1 =>
        rw [hb] at h
        cases ha : output_write_after K fd start ts q1 with
        | none => simp [ha] at h
        | some res =>
          obtain ⟨q2, e2⟩ := res
          simp only [ha, Option.some.injEq, Prod.mk.injEq] at h
          obtain ⟨-, rfl⟩ := h
          intro ev hev
          rcases List.mem_append.mp hev with h1 | h1
          · obtain ⟨-, hcase⟩ := output_write_body_next K fd start t d rest q1 e1 hb
            rcases hcase with ⟨-, -, -, rfl⟩ | ⟨-, -, -, rfl⟩ | ⟨-, -, -, rfl⟩ <;>
              simp [write_event] at h1 <;> rcases h1 with rfl | rfl <;> rfl
          · exact ih q1 q2 e2 ha ev h1

/-! ## The fatal path -/

/-- C3: when a drain called without the error flag sees a `write` fail with an
OS error code `e` other than `EAGAIN` and `EINTR`, every attached node (the
monitors being distinct) is sent exactly one error packet, carrying `e`, and
exactly one boolean packet, `true` on the closed port of the stream; a node
that is not attached is sent nothing; and the queue is empty afterwards, the
watch handle cleared and `false` returned. -/
theorem fatal_write_fan_out (K : Consts) (output : output_data) (flags : Nat)
    (env : DrainEnv) (b : Bool) (output' : output_data) (evs : List Event)
    (fd' : Int) (blob : sol_blob) (off : Nat) (r e : Int)
    (hdistinct : output.monitors.Nodup)
    (hflags : flags &&& K.SOL_FD_FLAGS_ERR = 0)
    (hcb : watch_cb K output flags env = some (b, output', evs))
    (hw : Event.write fd' blob off r e ∈ evs) (hr : r < 0) (hpos : 0 < e)
    (h1 : e ≠ EINTR) (h2 : e ≠ EAGAIN) :
    (∀ n ∈ output.monitors, errors_to n evs = [e] ∧ bools_to n evs = [(output.port, true)]) ∧
    (∀ n, n ∉ output.monitors → errors_to n evs = [] ∧ bools_to n evs = []) ∧
    output'.data = [] ∧ output'.monitors = output.monitors ∧ output'.watch = none ∧
    b = false := by
  rcases watch_cb_some K output flags env b output' evs hcb with ⟨hf, -⟩ | ⟨-, hex⟩
  · exact absurd hflags hf
  obtain ⟨ret, data, evs1, hl, hb, ho, he⟩ := hex
  obtain ⟨hquiet, -, hfatal⟩ := output_write_loop_facts K output.fd env.start env.ticks
    output.data ret data evs1 hl
  have hret : ret = -e := by
    by_cases hneg : ret < 0
    · rw [watch_cb_finish_fatal _ ret hneg] at he
      subst he
      rcases List.mem_append.mp hw with h3 | h3
      · exact hfatal fd' blob off r e h3 hr h1 h2
      · rcases List.mem_append.mp h3 with h4 | h4
        · have := notify_monitors_quiet _ _ _ h4
          simp [Event.is_write] at this
        · have := (unref_all_quiet _ _ h4).2
          simp [Event.is_write] at this
    · by_cases hd : data = []
      · rw [watch_cb_finish_idle _ ret hneg (by simpa using hd)] at he
        subst he
        exact hfatal fd' blob off r e (by simpa using hw) hr h1 h2
      · rw [watch_cb_finish_busy _ ret hneg (by simpa using hd)] at he
        subst he
        exact hfatal fd' blob off r e (by simpa using hw) hr h1 h2
  have hneg : ret < 0 := by omega
  rw [watch_cb_finish_fatal _ ret hneg] at hb ho he
  have hcode : -ret = e := by omega
  rw [hcode] at he
  have herr : ∀ n, errors_to n evs = List.replicate (output.monitors.count n) e ∧
      bools_to n evs = List.replicate (output.monitors.count n) (output.port, true) := by
    intro n
    have hq1 := no_packets_silent n evs1 hquiet
    have hq2 := no_packets_silent n (unref_all data) (fun ev hev => (unref_all_quiet data ev hev).1)
    have hq3 := errors_to_notify { output with data := data } e n
    have hq4 := bools_to_notify { output with data := data } e n
    simp only at hq3 hq4
    rw [he]
    simp only [errors_to_append, bools_to_append]
    rw [hq1.1, hq1.2, hq2.1, hq2.2, hq3, hq4]
    simp
  refine ⟨?_, ?_, by rw [ho], by rw [ho], by rw [ho], hb⟩
  · intro n hn
    obtain ⟨e1, e2⟩ := herr n
    rw [e1, e2, List.count_eq_one_of_mem hdistinct hn]
    simp
  · intro n hn
    obtain ⟨e1, e2⟩ := herr n
    rw [e1, e2, List.count_eq_zero_of_not_mem hn]
    simp

theorem fatal_write_fan_out_witness :
    errors_to 1 [Event.write 1 blobA 0 2 0, Event.write 1 blobA 2 (-1) 5,
        Event.error_packet 1 5, Event.bool_packet 1 0 true, Event.blob_unref blobA] = [5] ∧
      errors_to 2 [Event.write 1 blobA 0 2 0, Event.write 1 blobA 2 (-1) 5,
        Event.error_packet 1 5, Event.bool_packet 1 0 true, Event.blob_unref blobA] = [] :=
  have h := fatal_write_fan_out K0 busyA 2 ⟨t0, [tick_ok 2, tick_err 5]⟩ false
    { busyA with data := [], watch := none }
    [Event.write 1 blobA 0 2 0, Event.write 1 blobA 2 (-1) 5,
      Event.error_packet 1 5, Event.bool_packet 1 0 true, Event.blob_unref blobA]
    1 blobA 2 (-1) 5 (by decide) (by decide) (by decide) (by decide) (by decide) (by decide)
    (by decide) (by decide)
  ⟨(h.1 1 (by decide)).1, (h.2.1 2 (by decide)).1⟩

/-- C4: when the flags passed to `watch_cb` include `SOL_FD_FLAGS_ERR` (whatever
the other bits), no `write` is issued; every monitor is sent the error packet
with code `EBADF` and `true` on the closed port, once for each time it is in the
list; the blobs released are those of the queue as it was; the queue ends
empty, the watch handle `NULL`, and `false` is returned. -/
theorem descriptor_error_is_fatal (K : Consts) (output : output_data) (flags : Nat)
    (env : DrainEnv) (h : flags &&& K.SOL_FD_FLAGS_ERR ≠ 0) :
    watch_cb K output flags env =
      some (false, { output with data := [], watch := none },
        notify_monitors output EBADF ++ unref_all output.data) ∧
    (∀ ev ∈ notify_monitors output EBADF ++ unref_all output.data, ev.is_write = false) ∧
    (∀ n ∈ output.monitors,
      Event.error_packet n EBADF ∈ notify_monitors output EBADF ∧
      Event.bool_packet n output.port true ∈ notify_monitors output EBADF) ∧
    (∀ n, errors_to n (notify_monitors output EBADF ++ unref_all output.data) =
        List.replicate (output.monitors.count n) EBADF ∧
      bools_to n (notify_monitors output EBADF ++ unref_all output.data) =
        List.replicate (output.monitors.count n) (output.port, true)) := by
  refine ⟨watch_cb_err_flag K output flags env h, ?_, ?_, ?_⟩
  · intro ev hev
    rcases List.mem_append.mp hev with h1 | h1
    · exact notify_monitors_quiet _ _ _ h1
    · exact (unref_all_quiet _ _ h1).2
  · intro n hn
    simp only [notify_monitors, List.mem_flatMap, List.mem_cons, List.mem_singleton,
      List.not_mem_nil, or_false]
    exact ⟨⟨n, hn, Or.inl rfl⟩, ⟨n, hn, Or.inr rfl⟩⟩
  · intro n
    have hq := no_packets_silent n (unref_all output.data)
      (fun ev hev => (unref_all_quiet output.data ev hev).1)
    rw [errors_to_append, bools_to_append, hq.1, hq.2, errors_to_notify, bools_to_notify]
    simp

theorem descriptor_error_is_fatal_witness :
    watch_cb K0 busyA 10 ⟨t0, [tick_ok 3]⟩ =
      some (false, { busyA with data := [], watch := none },
        [Event.error_packet 1 9, Event.bool_packet 1 0 true, Event.blob_unref blobA]) :=
  (descriptor_error_is_fatal K0 busyA 10 ⟨t0, [tick_ok 3]⟩ (by decide)).1

/-! ## Leaving the loop early -/

theorem budget_exceeded_iff (K : Consts) (start now : timespec) :
    budget_exceeded K start now = true ↔
      ((sol_util_timespec_sub now start).tv_sec > 0 ∨
        (sol_util_timespec_sub now start).tv_nsec > K.CHUNK_MAX_TIME_NS) := by
  simp [budget_exceeded]

/-- The drain that leaves the loop at the top of an iteration, or on `EAGAIN`,
with the queue `d :: rest`. -/
theorem drain_paused (K : Consts) (output : output_data) (flags : Nat) (start : timespec)
    (pre : List Tick) (t : Tick) (post : List Tick) (d : write_data) (rest : List write_data)
    (evs0 e : List Event)
    (hflags : flags &&& K.SOL_FD_FLAGS_ERR = 0)
    (hpre : output_write_after K output.fd start pre output.data = some (d :: rest, evs0))
    (hb : output_write_body K output.fd start t d rest = Iter.stop 0 (d :: rest) e) :
    output_write K output ⟨start, pre ++ t :: post⟩ =
      some (0, { output with data := d :: rest }, evs0 ++ e) ∧
    watch_cb K output flags ⟨start, pre ++ t :: post⟩ =
      some (true, { output with data := d :: rest }, evs0 ++ e) := by
  have hl : output_write_loop K output.fd start (pre ++ t :: post) output.data =
      some (0, d :: rest, evs0 ++ e) := by
    rw [output_write_loop_append K output.fd start pre output.data (d :: rest) evs0
      (t :: post) hpre]
    simp [output_write_loop, hb]
  refine ⟨by simp [output_write, hl], ?_⟩
  rw [watch_cb_write K output flags ⟨start, pre ++ t :: post⟩ hflags 0 (d :: rest)
    (evs0 ++ e) hl]
  rw [watch_cb_finish_busy _ 0 (by decide) (by simp)]
  simp

/-- C5: when the `write` attempted on the head of a non-empty queue fails with
`EAGAIN`, `output_write` leaves the loop and returns 0 with the queue, head
offset included, as it was at the top of that iteration; `watch_cb` then sends
no packet to any node, leaves the watch handle as it was and returns `true`.
The iteration may come after any number of earlier ones (`pre`) of the same
call. -/
theorem would_block_pauses (K : Consts) (output : output_data) (flags : Nat)
    (start : timespec) (pre : List Tick) (t : Tick) (post : List Tick) (d : write_data)
    (rest : List write_data) (evs0 : List Event)
    (hflags : flags &&& K.SOL_FD_FLAGS_ERR = 0)
    (hpre : output_write_after K output.fd start pre output.data = some (d :: rest, evs0))
    (hbudget : budget_exceeded K start t.now = false)
    (hr : t.wr.r < 0) (he : t.wr.errno = EAGAIN) :
    output_write K output ⟨start, pre ++ t :: post⟩ =
      some (0, { output with data := d :: rest },
        evs0 ++ [Event.write output.fd d.blob d.offset t.wr.r EAGAIN]) ∧
    watch_cb K output flags ⟨start, pre ++ t :: post⟩ =
      some (true, { output with data := d :: rest },
        evs0 ++ [Event.write output.fd d.blob d.offset t.wr.r EAGAIN]) ∧
    (∀ n, errors_to n (evs0 ++ [Event.write output.fd d.blob d.offset t.wr.r EAGAIN]) = [] ∧
      bools_to n (evs0 ++ [Event.write output.fd d.blob d.offset t.wr.r EAGAIN]) = []) := by
  have hb := body_eagain K output.fd start t d rest hbudget hr he
  simp only [write_event, he] at hb
  obtain ⟨h1, h2⟩ := drain_paused K output flags start pre t post d rest evs0 _ hflags hpre hb
  refine ⟨h1, h2, ?_⟩
  intro n
  apply no_packets_silent
  intro ev hev
  rcases List.mem_append.mp hev with h3 | h3
  · exact output_write_after_quiet K output.fd start pre output.data (d :: rest) evs0 hpre ev h3
  · simp only [List.mem_singleton] at h3
    subst h3
    rfl

theorem would_block_pauses_witness :
    watch_cb K0 busyA 2 ⟨t0, [tick_ok 2] ++ tick_err 11 :: [tick_ok 1]⟩ =
      some (true, { busyA with data := [⟨blobA, 2⟩] },
        [Event.write 1 blobA 0 2 0] ++ [Event.write 1 blobA 2 (-1) 11]) :=
  (would_block_pauses K0 busyA 2 t0 [tick_ok 2] (tick_err 11) [tick_ok 1] ⟨blobA, 2⟩ []
    [Event.write 1 blobA 0 2 0] (by decide) (by decide) (by decide) (by decide)
    (by decide)).2.1

/-- C6: when, at the top of an iteration of the loop of `output_write`, the
queue is not empty and the time elapsed since the loop was entered is over the
budget (elapsed seconds above 0, or elapsed nanoseconds above
`CHUNK_MAX_TIME_NS`), no further `write` is issued, `output_write` returns 0 with
the queue as it was at the top of that iteration, and `watch_cb` sends no
packet, leaves the watch handle as it was and returns `true`. -/
theorem time_budget_pauses (K : Consts) (output : output_data) (flags : Nat)
    (start : timespec) (pre : List Tick) (t : Tick) (post : List Tick) (d : write_data)
    (rest : List write_data) (evs0 : List Event)
    (hflags : flags &&& K.SOL_FD_FLAGS_ERR = 0)
    (hpre : output_write_after K output.fd start pre output.data = some (d :: rest, evs0))
    (hlate : (sol_util_timespec_sub t.now start).tv_sec > 0 ∨
      (sol_util_timespec_sub t.now start).tv_nsec > K.CHUNK_MAX_TIME_NS) :
    output_write K output ⟨start, pre ++ t :: post⟩ =
      some (0, { output with data := d :: rest }, evs0) ∧
    watch_cb K output flags ⟨start, pre ++ t :: post⟩ =
      some (true, { output with data := d :: rest }, evs0) ∧
    (∀ n, errors_to n evs0 = [] ∧ bools_to n evs0 = []) := by
  have hb := body_late K output.fd start t d rest ((budget_exceeded_iff K start t.now).mpr hlate)
  obtain ⟨h1, h2⟩ := drain_paused K output flags start pre t post d rest evs0 _ hflags hpre hb
  rw [List.append_nil] at h1 h2
  refine ⟨h1, h2, ?_⟩
  intro n
  exact no_packets_silent n evs0
    (output_write_after_quiet K output.fd start pre output.data (d :: rest) evs0 hpre)

theorem time_budget_pauses_witness :
    watch_cb K0 busyA 2 ⟨t0, [tick_ok 2] ++ tick_late :: [tick_ok 1]⟩ =
      some (true, { busyA with data := [⟨blobA, 2⟩] }, [Event.write 1 blobA 0 2 0]) :=
  (time_budget_pauses K0 busyA 2 t0 [tick_ok 2] tick_late [tick_ok 1] ⟨blobA, 2⟩ []
    [Event.write 1 blobA 0 2 0] (by decide) (by decide) (by decide)).2.1

/-! ## `watch_start` and `common_process` -/

theorem del_last_appended (output : output_data) (w : write_data) :
    del_last { output with data := output.data ++ [w] } = output := by
  simp [del_last]

theorem watch_start_armed (K : Consts) (output : output_data) (env : ProcessEnv)
    (h : output.watch ≠ none) : watch_start K output env = (0, output, []) := by
  cases hw : output.watch with
  | none => exact absurd hw h
  | some x => simp [watch_start, hw]

theorem watch_start_set_flag_failed (K : Consts) (output : output_data) (env : ProcessEnv)
    (h : output.watch = none) (hs : env.set_flag_ret < 0) :
    watch_start K output env =
      (-env.errno, output, [Event.fd_set_flag output.fd env.set_flag_ret]) := by
  simp [watch_start, h, hs]

theorem watch_start_add_failed (K : Consts) (output : output_data) (env : ProcessEnv)
    (h : output.watch = none) (hs : ¬ env.set_flag_ret < 0) (ha : env.fd_add = none) :
    watch_start K output env =
      (-ENOMEM, output, [Event.fd_set_flag output.fd env.set_flag_ret,
        Event.fd_add output.fd (K.SOL_FD_FLAGS_OUT ||| K.SOL_FD_FLAGS_ERR) none]) := by
  cases output
  simp_all [watch_start]

theorem watch_start_added (K : Consts) (output : output_data) (env : ProcessEnv)
    (h : output.watch = none) (hs : ¬ env.set_flag_ret < 0) (ha : env.fd_add ≠ none) :
    watch_start K output env =
      (0, { output with watch := env.fd_add },
        [Event.fd_set_flag output.fd env.set_flag_ret,
          Event.fd_add output.fd (K.SOL_FD_FLAGS_OUT ||| K.SOL_FD_FLAGS_ERR) env.fd_add]) := by
  cases hf : env.fd_add with
  | none => exact absurd hf ha
  | some x => simp [watch_start, h, hs, hf]

theorem common_process_not_blob (K : Consts) (output : output_data) (packet : sol_flow_packet)
    (env : ProcessEnv) (h : packet.get_blob_ret < 0) :
    common_process K output packet env = (packet.get_blob_ret, output, []) := by
  simp [common_process, h]

theorem common_process_no_slot (K : Consts) (output : output_data) (packet : sol_flow_packet)
    (env : ProcessEnv) (h : ¬ packet.get_blob_ret < 0) (ha : env.append_ok = false) :
    common_process K output packet env = (-ENOMEM, output, []) := by
  simp [common_process, h, ha]

theorem common_process_no_ref (K : Consts) (output : output_data) (packet : sol_flow_packet)
    (env : ProcessEnv) (h : ¬ packet.get_blob_ret < 0) (ha : env.append_ok = true)
    (hr : env.ref_ok = false) :
    common_process K output packet env = (-ENOMEM, output, []) := by
  simp [common_process, h, ha, hr, del_last_appended]

/-- With a slot and a reference in hand, `common_process` is decided by
`watch_start` on the stream with the new entry. -/
theorem common_process_started (K : Consts) (output : output_data) (packet : sol_flow_packet)
    (env : ProcessEnv) (h : ¬ packet.get_blob_ret < 0) (ha : env.append_ok = true)
    (hr : env.ref_ok = true) (r : Int) (output' : output_data) (evs : List Event)
    (hw : watch_start K
      { output with data := output.data ++ [{ blob := packet.blob, offset := 0 }] } env =
        (r, output', evs)) :
    common_process K output packet env =
      if r < 0 then
        (-ENOMEM, del_last output',
          Event.blob_ref packet.blob :: evs ++ [Event.blob_unref packet.blob])
      else (0, output', Event.blob_ref packet.blob :: evs) := by
  simp [common_process, h, ha, hr, hw]

theorem common_process_armed (K : Consts) (output : output_data) (packet : sol_flow_packet)
    (env : ProcessEnv) (h : ¬ packet.get_blob_ret < 0) (ha : env.append_ok = true)
    (hr : env.ref_ok = true) (hw : output.watch ≠ none) :
    common_process K output packet env =
      (0, { output with data := output.data ++ [{ blob := packet.blob, offset := 0 }] },
        [Event.blob_ref packet.blob]) := by
  rw [common_process_started K output packet env h ha hr _ _ _
    (watch_start_armed K _ env (by simpa using hw))]
  simp

theorem common_process_set_flag_failed (K : Consts) (output : output_data)
    (packet : sol_flow_packet) (env : ProcessEnv) (h : ¬ packet.get_blob_ret < 0)
    (ha : env.append_ok = true) (hr : env.ref_ok = true) (hw : output.watch = none)
    (hs : env.set_flag_ret < 0) (he : 0 < env.errno) :
    common_process K output packet env =
      (-ENOMEM, output, [Event.blob_ref packet.blob,
        Event.fd_set_flag output.fd env.set_flag_ret, Event.blob_unref packet.blob]) := by
  rw [common_process_started K output packet env h ha hr _ _ _
    (watch_start_set_flag_failed K _ env (by simpa using hw) hs)]
  have hneg : -env.errno < 0 := by omega
  simp [hneg, del_last_appended]

theorem common_process_add_failed (K : Consts) (output : output_data)
    (packet : sol_flow_packet) (env : ProcessEnv) (h : ¬ packet.get_blob_ret < 0)
    (ha : env.append_ok = true) (hr : env.ref_ok = true) (hw : output.watch = none)
    (hs : ¬ env.set_flag_ret < 0) (hf : env.fd_add = none) :
    common_process K output packet env =
      (-ENOMEM, output, [Event.blob_ref packet.blob,
        Event.fd_set_flag output.fd env.set_flag_ret,
        Event.fd_add output.fd (K.SOL_FD_FLAGS_OUT ||| K.SOL_FD_FLAGS_ERR) none,
        Event.blob_unref packet.blob]) := by
  rw [common_process_started K output packet env h ha hr _ _ _
    (watch_start_add_failed K _ env (by simpa using hw) hs hf)]
  have hneg : -ENOMEM < 0 := by decide
  simp [hneg, del_last_appended]

theorem common_process_added (K : Consts) (output : output_data)
    (packet : sol_flow_packet) (env : ProcessEnv) (h : ¬ packet.get_blob_ret < 0)
    (ha : env.append_ok = true) (hr : env.ref_ok = true) (hw : output.watch = none)
    (hs : ¬ env.set_flag_ret < 0) (hf : env.fd_add ≠ none) :
    common_process K output packet env =
      (0, { output with data := output.data ++ [{ blob := packet.blob, offset := 0 }],
                        watch := env.fd_add },
        [Event.blob_ref packet.blob, Event.fd_set_flag output.fd env.set_flag_ret,
          Event.fd_add output.fd (K.SOL_FD_FLAGS_OUT ||| K.SOL_FD_FLAGS_ERR) env.fd_add]) := by
  rw [common_process_started K output packet env h ha hr _ _ _
    (watch_start_added K _ env (by simpa using hw) hs hf)]
  simp

/-- The one way `common_process` returns 0 without arming: `sol_util_fd_set_flag`
fails and leaves an `errno` that is not positive, which no OS call does. -/
theorem common_process_errno_not_positive (K : Consts) (output : output_data)
    (packet : sol_flow_packet) (env : ProcessEnv) (h : ¬ packet.get_blob_ret < 0)
    (ha : env.append_ok = true) (hr : env.ref_ok = true) (hw : output.watch = none)
    (hs : env.set_flag_ret < 0) (he : ¬ 0 < env.errno) :
    common_process K output packet env =
      (0, { output with data := output.data ++ [{ blob := packet.blob, offset := 0 }] },
        [Event.blob_ref packet.blob, Event.fd_set_flag output.fd env.set_flag_ret]) := by
  rw [common_process_started K output packet env h ha hr _ _ _
    (watch_start_set_flag_failed K _ env (by simpa using hw) hs)]
  have hneg : ¬ -env.errno < 0 := by omega
  simp [hneg]

/-! ## Enqueue -/

/-- C8: when the packet holds a blob, the queue slot and the blob reference are
obtained and the arm step succeeds (the watch is already armed, or setting
`O_NONBLOCK` and `sol_fd_add` both succeed), `common_process` returns 0; the
queue is the old queue followed by the one entry `{blob, offset = 0}`; the
monitors, port and descriptor are unchanged; the watch handle is not `NULL`;
when the watch was armed already the handle is the same and the only call made
is the `sol_blob_ref`, so nothing is registered a second time. -/
theorem enqueue_appends (K : Consts) (output : output_data) (packet : sol_flow_packet)
    (env : ProcessEnv) (hpkt : ¬ packet.get_blob_ret < 0) (happ : env.append_ok = true)
    (href : env.ref_ok = true)
    (harm : output.watch ≠ none ∨ (¬ env.set_flag_ret < 0 ∧ env.fd_add ≠ none)) :
    (common_process K output packet env).1 = 0 ∧
    (common_process K output packet env).2.1.data =
      output.data ++ [{ blob := packet.blob, offset := 0 }] ∧
    (common_process K output packet env).2.1.monitors = output.monitors ∧
    (common_process K output packet env).2.1.port = output.port ∧
    (common_process K output packet env).2.1.fd = output.fd ∧
    (common_process K output packet env).2.1.watch ≠ none ∧
    (output.watch ≠ none →
      (common_process K output packet env).2.1.watch = output.watch ∧
      (common_process K output packet env).2.2 = [Event.blob_ref packet.blob]) ∧
    (output.watch = none →
      (common_process K output packet env).2.1.watch = env.fd_add ∧
      (common_process K output packet env).2.2 =
        [Event.blob_ref packet.blob, Event.fd_set_flag output.fd env.set_flag_ret,
          Event.fd_add output.fd (K.SOL_FD_FLAGS_OUT ||| K.SOL_FD_FLAGS_ERR) env.fd_add]) := by
  by_cases hw : output.watch = none
  · rcases harm with h | ⟨hs, hf⟩
    · exact absurd hw h
    · rw [common_process_added K output packet env hpkt happ href hw hs hf]
      simp [hw, hf]
  · rw [common_process_armed K output packet env hpkt happ href hw]
    simp [hw]

theorem enqueue_appends_witness :
    (common_process K0 busyA packetB env_ok).2.1.data = busyA.data ++ [⟨blobB, 0⟩] ∧
    (common_process K0 (stdout_data K0) packetA env_ok).2.1.watch = some 7 :=
  ⟨(enqueue_appends K0 busyA packetB env_ok (by decide) (by decide) (by decide)
      (Or.inl (by decide))).2.1,
   ((enqueue_appends K0 (stdout_data K0) packetA env_ok (by decide) (by decide) (by decide)
      (Or.inr ⟨by decide, by decide⟩)).2.2.2.2.2.2.2 (by decide)).1⟩

/-- C9, as the code behaves: on the idle `stdout` stream, when setting
`O_NONBLOCK` fails with `errno = EBADF`, `watch_start` returns `-EBADF` but
`common_process` returns `-ENOMEM`: the code of the arm step is not passed on. -/
theorem set_flag_failure_reported_as_enomem :
    (watch_start K0 { stdout_data K0 with data := [⟨blobA, 0⟩] } env_set_flag_fails).1 = -EBADF ∧
    (common_process K0 (stdout_data K0) packetA env_set_flag_fails).1 = -ENOMEM ∧
    (common_process K0 (stdout_data K0) packetA env_set_flag_fails).1 ≠ -env_set_flag_fails.errno := by
  decide

/-- C10: whatever makes `common_process` fail (the packet holds no blob, no
queue slot, no blob reference, `O_NONBLOCK` cannot be set, the watch cannot be
registered), it returns a negative value and the stream (queue entries, order
and offsets, monitors, watch handle) is exactly as before the call; it returns
either 0 or a negative value; and a failing `common_open` returns `-ENOMEM` with
the stream as before. The `errno` left by a failing `sol_util_fd_set_flag` is
taken to be positive. -/
theorem failed_enqueue_rolls_back (K : Consts) (output : output_data)
    (packet : sol_flow_packet) (env : ProcessEnv)
    (herrno : env.set_flag_ret < 0 → 0 < env.errno) :
    ((common_process K output packet env).1 = 0 ∨
      ((common_process K output packet env).1 < 0 ∧
        (common_process K output packet env).2.1 = output)) ∧
    (packet.get_blob_ret < 0 →
      (common_process K output packet env).1 = packet.get_blob_ret) ∧
    (¬ packet.get_blob_ret < 0 → env.append_ok = false →
      (common_process K output packet env).1 = -ENOMEM) ∧
    (¬ packet.get_blob_ret < 0 → env.append_ok = true → env.ref_ok = false →
      (common_process K output packet env).1 = -ENOMEM) ∧
    (¬ packet.get_blob_ret < 0 → env.append_ok = true → env.ref_ok = true →
      output.watch = none → env.set_flag_ret < 0 →
      (common_process K output packet env).1 = -ENOMEM) ∧
    (¬ packet.get_blob_ret < 0 → env.append_ok = true → env.ref_ok = true →
      output.watch = none → ¬ env.set_flag_ret < 0 → env.fd_add = none →
      (common_process K output packet env).1 = -ENOMEM) ∧
    (∀ node append_ret,
      (append_ret < 0 → common_open output node append_ret = (-ENOMEM, output, [])) ∧
      ((common_open output node append_ret).1 = 0 ∨
        ((common_open output node append_ret).1 < 0 ∧
          (common_open output node append_ret).2.1 = output))) := by
  have hneg : -ENOMEM < 0 := by decide
  refine ⟨?_, ?_, ?_, ?_, ?_, ?_, ?_⟩
  · by_cases hpkt : packet.get_blob_ret < 0
    · rw [common_process_not_blob K output packet env hpkt]
      exact Or.inr ⟨hpkt, rfl⟩
    · cases happ : env.append_ok with
      | false =>
        rw [common_process_no_slot K output packet env hpkt happ]
        exact Or.inr ⟨hneg, rfl⟩
      | true =>
        cases href : env.ref_ok with
        | false =>
          rw [common_process_no_ref K output packet env hpkt happ href]
          exact Or.inr ⟨hneg, rfl⟩
        | true =>
          by_cases hw : output.watch = none
          · by_cases hs : env.set_flag_ret < 0
            · rw [common_process_set_flag_failed K output packet env hpkt happ href hw hs
                (herrno hs)]
              exact Or.inr ⟨hneg, rfl⟩
            · by_cases hf : env.fd_add = none
              · rw [common_process_add_failed K output packet env hpkt happ href hw hs hf]
                exact Or.inr ⟨hneg, rfl⟩
              · rw [common_process_added K output packet env hpkt happ href hw hs hf]
                exact Or.inl rfl
          · rw [common_process_armed K output packet env hpkt happ href hw]
            exact Or.inl rfl
  · intro hpkt
    rw [common_process_not_blob K output packet env hpkt]
  · intro hpkt happ
    rw [common_process_no_slot K output packet env hpkt happ]
  · intro hpkt happ href
    rw [common_process_no_ref K output packet env hpkt happ href]
  · intro hpkt happ href hw hs
    rw [common_process_set_flag_failed K output packet env hpkt happ href hw hs (herrno hs)]
  · intro hpkt happ href hw hs hf
    rw [common_process_add_failed K output packet env hpkt happ href hw hs hf]
  · intro node append_ret
    by_cases hr : append_ret < 0
    · simp [common_open, hr, hneg]
    · simp [common_open, hr]

theorem failed_enqueue_rolls_back_witness :
    (common_process K0 busyA packetB { env_ok with ref_ok := false }).1 = -ENOMEM ∧
    (common_process K0 (stdout_data K0) packetA env_set_flag_fails).1 = -ENOMEM ∧
    common_open busyA 2 (-1) = (-ENOMEM, busyA, []) :=
  ⟨(failed_enqueue_rolls_back K0 busyA packetB { env_ok with ref_ok := false }
      (by decide)).2.2.2.1 (by decide) (by decide) (by decide),
   (failed_enqueue_rolls_back K0 (stdout_data K0) packetA env_set_flag_fails
      (by decide)).2.2.2.2.1 (by decide) (by decide) (by decide) (by decide) (by decide),
   ((failed_enqueue_rolls_back K0 busyA packetB env_ok (by decide)).2.2.2.2.2.2 2 (-1)).1
      (by decide)⟩

/-! ## The invariant `watch != NULL` iff the queue is not empty -/

theorem common_process_keeps_invariant (K : Consts) (output : output_data)
    (packet : sol_flow_packet) (env : ProcessEnv)
    (herrno : env.set_flag_ret < 0 → 0 < env.errno) (hinv : armed_iff_work output) :
    armed_iff_work (common_process K output packet env).2.1 := by
  by_cases hpkt : packet.get_blob_ret < 0
  · rw [common_process_not_blob K output packet env hpkt]
    exact hinv
  cases happ : env.append_ok with
  | false =>
    rw [common_process_no_slot K output packet env hpkt happ]
    exact hinv
  | true =>
    cases href : env.ref_ok with
    | false =>
      rw [common_process_no_ref K output packet env hpkt happ href]
      exact hinv
    | true =>
      by_cases hw : output.watch = none
      · by_cases hs : env.set_flag_ret < 0
        · rw [common_process_set_flag_failed K output packet env hpkt happ href hw hs
            (herrno hs)]
          exact hinv
        · by_cases hf : env.fd_add = none
          · rw [common_process_add_failed K output packet env hpkt happ href hw hs hf]
            exact hinv
          · rw [common_process_added K output packet env hpkt happ href hw hs hf]
            simp [armed_iff_work, hf]
      · rw [common_process_armed K output packet env hpkt happ href hw]
        simp [armed_iff_work, hw]

theorem watch_cb_keeps_invariant (K : Consts) (output : output_data) (flags : Nat)
    (env : DrainEnv) (b : Bool) (output' : output_data) (evs : List Event)
    (hinv : armed_iff_work output)
    (hcb : watch_cb K output flags env = some (b, output', evs)) :
    armed_iff_work output' := by
  rcases watch_cb_some K output flags env b output' evs hcb with ⟨-, he⟩ | ⟨-, hex⟩
  · have h := watch_cb_finish_cases output (-EBADF)
    rw [← he] at h
    simp only at h
    rcases h.2.2.2 with ⟨-, hd, hw⟩ | ⟨-, hd, ho⟩
    · simp [armed_iff_work, hd, hw]
    · rw [ho]
      exact hinv
  · obtain ⟨ret, data, evs1, hl, -, ho, -⟩ := hex
    obtain ⟨-, hempty, -⟩ := output_write_loop_facts K output.fd env.start env.ticks
      output.data ret data evs1 hl
    have h := watch_cb_finish_cases { output with data := data } ret
    rw [← ho] at h
    rcases h.2.2.2 with ⟨-, hd, hw⟩ | ⟨-, hd, ho'⟩
    · simp [armed_iff_work, hd, hw]
    · rw [ho'] at hd ⊢
      simp only at hd
      have hne : output.data ≠ [] := fun h0 => hd (hempty h0)
      have harmed : output.watch ≠ none := hinv.mpr hne
      simp [armed_iff_work, hd, harmed]

theorem common_close_keeps_invariant (output : output_data) (node : Nat)
    (hinv : armed_iff_work output) : armed_iff_work (common_close output node).1 := by
  unfold common_close
  by_cases hm : (del_monitor node output.monitors).length = 0
  · simp [hm, armed_iff_work]
  · simp only [hm, if_false]
    exact hinv

/-- C2: the predicate "`watch != NULL` exactly when the queue is not empty"
holds of `stdout_data` and `stderr_data` as initialised, and every operation
keeps it: `common_process` whether it succeeds or fails (a failing
`sol_util_fd_set_flag` leaving a positive `errno`), `watch_cb` for every flag
set and every outcome of its writes, `common_open` and `common_close`. -/
theorem armed_iff_work_invariant (K : Consts) :
    armed_iff_work (stdout_data K) ∧ armed_iff_work (stderr_data K) ∧
    (∀ output packet env, (env.set_flag_ret < 0 → 0 < env.errno) → armed_iff_work output →
      armed_iff_work (common_process K output packet env).2.1) ∧
    (∀ output flags env b output' evs, armed_iff_work output →
      watch_cb K output flags env = some (b, output', evs) → armed_iff_work output') ∧
    (∀ output node append_ret, armed_iff_work output →
      armed_iff_work (common_open output node append_ret).2.1) ∧
    (∀ output node, armed_iff_work output → armed_iff_work (common_close output node).1) := by
  refine ⟨by simp [armed_iff_work, stdout_data], by simp [armed_iff_work, stderr_data],
    ?_, ?_, ?_, ?_⟩
  · intro output packet env herrno hinv
    exact common_process_keeps_invariant K output packet env herrno hinv
  · intro output flags env b output' evs hinv hcb
    exact watch_cb_keeps_invariant K output flags env b output' evs hinv hcb
  · intro output node append_ret hinv
    by_cases hr : append_ret < 0
    · simpa [common_open, hr] using hinv
    · simpa [common_open, hr, armed_iff_work] using hinv
  · intro output node hinv
    exact common_close_keeps_invariant output node hinv

theorem armed_iff_work_invariant_witness :
    armed_iff_work (common_process K0 busyA packetB env_ok).2.1 ∧
    armed_iff_work { busyA with data := [], watch := none } ∧
    armed_iff_work (common_close busyA 1).1 :=
  have hbusy : armed_iff_work busyA := by simp [armed_iff_work, busyA]
  ⟨(armed_iff_work_invariant K0).2.2.1 busyA packetB env_ok (by decide) hbusy,
   (armed_iff_work_invariant K0).2.2.2.1 busyA 2 ⟨t0, [tick_ok 3]⟩ false
      { busyA with data := [], watch := none }
      [Event.write 1 blobA 0 3 0, Event.blob_unref blobA] hbusy (by decide),
   (armed_iff_work_invariant K0).2.2.2.2.2 busyA 1 hbusy⟩

/-! ## Counting bytes and references -/

theorem emitted_append (xs ys : List Event) : emitted (xs ++ ys) = emitted xs ++ emitted ys := by
  simp [emitted, List.flatMap_append]

theorem refs_append (b : sol_blob) (xs ys : List Event) :
    refs b (xs ++ ys) = refs b xs + refs b ys := by
  simp [refs, List.count_append]

theorem unrefs_append (b : sol_blob) (xs ys : List Event) :
    unrefs b (xs ++ ys) = unrefs b xs + unrefs b ys := by
  simp [unrefs, List.count_append]

theorem held_append (b : sol_blob) (xs ys : List write_data) :
    held b (xs ++ ys) = held b xs + held b ys := by
  simp [held, List.filter_append]

theorem held_cons (b : sol_blob) (w : write_data) (ws : List write_data) :
    held b (w :: ws) = (if w.blob = b then 1 else 0) + held b ws := by
  by_cases h : w.blob = b
  · simp [held, List.filter_cons, h]
    omega
  · simp [held, List.filter_cons, h]

theorem pending_cons (w : write_data) (ws : List write_data) :
    pending (w :: ws) = w.blob.mem.drop w.offset ++ pending ws := by
  simp [pending, List.flatMap_cons]

theorem pending_append (xs ys : List write_data) :
    pending (xs ++ ys) = pending xs ++ pending ys := by
  simp [pending, List.flatMap_append]

theorem side_events_silent (b : sol_blob) (evs : List Event)
    (h : ∀ ev ∈ evs, ev.is_fd = true ∨ ev.is_packet = true) :
    emitted evs = [] ∧ refs b evs = 0 ∧ unrefs b evs = 0 := by
  induction evs with
  | nil => simp [emitted, refs, unrefs]
  | cons ev evs ih =>
    have h1 := h ev (List.mem_cons_self _ _)
    obtain ⟨i1, i2, i3⟩ := ih (fun x hx => h x (List.mem_cons_of_mem _ hx))
    simp only [emitted, refs, unrefs] at i1 i2 i3 ⊢
    cases ev <;>
      simp_all [Event.is_fd, Event.is_packet, Event.emitted, List.flatMap_cons, List.count_cons]

theorem unref_all_counts (b : sol_blob) (data : List write_data) :
    emitted (unref_all data) = [] ∧ refs b (unref_all data) = 0 ∧
      unrefs b (unref_all data) = held b data := by
  induction data with
  | nil => simp [emitted, refs, unrefs, unref_all, held]
  | cons w ws ih =>
    obtain ⟨i1, i2, i3⟩ := ih
    rw [held_cons]
    simp only [emitted, refs, unrefs, unref_all] at i1 i2 i3 ⊢
    by_cases hw : w.blob = b
    · simp_all [List.flatMap_cons, List.count_cons, Event.emitted]
      omega
    · simp_all [List.flatMap_cons, List.count_cons, Event.emitted]

theorem notify_monitors_counts (b : sol_blob) (output : output_data) (code : Int) :
    emitted (notify_monitors output code) = [] ∧ refs b (notify_monitors output code) = 0 ∧
      unrefs b (notify_monitors output code) = 0 := by
  apply side_events_silent
  intro ev hev
  simp only [notify_monitors, List.mem_flatMap, List.mem_cons, List.mem_singleton,
    List.not_mem_nil, or_false] at hev
  obtain ⟨n, _, h | h⟩ := hev <;> subst h <;> exact Or.inr rfl

theorem refs_cons (b : sol_blob) (ev : Event) (evs : List Event) :
    refs b (ev :: evs) = (if ev = Event.blob_ref b then 1 else 0) + refs b evs := by
  by_cases h : ev = Event.blob_ref b
  · simp [refs, List.count_cons, h]
    omega
  · simp [refs, List.count_cons, h]

theorem unrefs_cons (b : sol_blob) (ev : Event) (evs : List Event) :
    unrefs b (ev :: evs) = (if ev = Event.blob_unref b then 1 else 0) + unrefs b evs := by
  by_cases h : ev = Event.blob_unref b
  · simp [unrefs, List.count_cons, h]
    omega
  · simp [unrefs, List.count_cons, h]

theorem emitted_cons (ev : Event) (evs : List Event) :
    emitted (ev :: evs) = ev.emitted ++ emitted evs := by
  simp [emitted, List.flatMap_cons]

theorem refs_nil (b : sol_blob) : refs b [] = 0 := rfl

theorem unrefs_nil (b : sol_blob) : unrefs b [] = 0 := rfl

theorem emitted_nil : emitted [] = [] := rfl

/-- The loop acquires no reference, and releases one for each entry it drops. -/
theorem output_write_loop_refs (K : Consts) (fd : Int) (start : timespec) (b : sol_blob)
    (ticks : List Tick) (data : List write_data) (ret : Int) (data' : List write_data)
    (evs : List Event)
    (h : output_write_loop K fd start ticks data = some (ret, data', evs)) :
    refs b evs = 0 ∧ unrefs b evs + held b data' = held b data := by
  refine output_write_loop_rec K fd start
    (fun data _ data' evs => refs b evs = 0 ∧ unrefs b evs + held b data' = held b data)
    ?_ ?_ ?_ ticks data ret data' evs h
  · simp [refs_nil, unrefs_nil]
  · intro t d rest ret data evs hb
    obtain ⟨rfl, hcase⟩ := output_write_body_stop K fd start t d rest ret data evs hb
    rcases hcase with ⟨-, -, rfl⟩ | ⟨-, -, rfl, -⟩
    · simp [refs_nil, unrefs_nil]
    · simp [refs_cons, unrefs_cons, refs_nil, unrefs_nil, write_event]
  · intro t d rest q e ret data evs hb ih
    obtain ⟨ih1, ih2⟩ := ih
    obtain ⟨-, hcase⟩ := output_write_body_next K fd start t d rest q e hb
    rw [refs_append, unrefs_append, ih1]
    rcases hcase with ⟨-, -, rfl, rfl⟩ | ⟨-, -, rfl, rfl⟩ | ⟨-, -, rfl, rfl⟩
    · simp only [refs_cons, unrefs_cons, refs_nil, unrefs_nil, write_event]
      simp only [reduceCtorEq, if_false]
      exact ⟨trivial, by omega⟩
    · simp only [refs_cons, unrefs_cons, refs_nil, unrefs_nil, write_event, held_cons]
      simp only [reduceCtorEq, if_false, Event.blob_unref.injEq]
      exact ⟨trivial, by omega⟩
    · simp only [held_cons, advance_blob] at ih2
      simp only [refs_cons, unrefs_cons, refs_nil, unrefs_nil, write_event, held_cons]
      simp only [reduceCtorEq, if_false]
      exact ⟨trivial, by omega⟩

theorem take_request (mem : List Nat) (off n : Nat) (h : mem.length ≤ off + n) :
    (mem.drop off).take n = mem.drop off := by
  apply List.take_of_length_le
  simp only [List.length_drop]
  omega

/-- A `write` that returned `r > 0`, no more than asked, moves the offset by `r`
without wrapping. -/
theorem advance_offset (d : write_data) (r : Int) (hr : 0 < r)
    (hreq : r ≤ ((d.blob.size - d.offset : Nat) : Int)) :
    (advance d r).offset = d.offset + r.toNat ∧ d.offset + r.toNat ≤ d.blob.size := by
  have hsz : d.blob.size ≤ SIZE_MAX := d.blob.size_le
  have h1 : d.offset + r.toNat ≤ d.blob.size := by omega
  refine ⟨?_, h1⟩
  simp only [advance, hr, gt_iff_lt, if_true]
  apply Nat.mod_eq_of_lt
  omega

/-- When every `write` returns at most what was asked, the bytes the loop puts
on the descriptor, followed by what is left in the queue, are what was in the
queue. -/
theorem output_write_loop_bytes (K : Consts) (fd : Int) (start : timespec)
    (ticks : List Tick) (data : List write_data) (ret : Int) (data' : List write_data)
    (evs : List Event)
    (h : output_write_loop K fd start ticks data = some (ret, data', evs)) :
    (∀ ev ∈ evs, ev.within_request = true) → emitted evs ++ pending data' = pending data := by
  refine output_write_loop_rec K fd start
    (fun data _ data' evs =>
      (∀ ev ∈ evs, ev.within_request = true) → emitted evs ++ pending data' = pending data)
    ?_ ?_ ?_ ticks data ret data' evs h
  · intro _
    simp [emitted_nil]
  · intro t d rest ret data evs hb _
    obtain ⟨rfl, hcase⟩ := output_write_body_stop K fd start t d rest ret data evs hb
    rcases hcase with ⟨-, -, rfl⟩ | ⟨-, hr, rfl, -⟩
    · simp [emitted_nil]
    · have : ¬ 0 < t.wr.r := by omega
      simp [emitted_cons, emitted_nil, write_event, Event.emitted, this]
  · intro t d rest q e ret data evs hb ih hreq
    have ih' := ih (fun ev hev => hreq ev (List.mem_append_right _ hev))
    obtain ⟨-, hcase⟩ := output_write_body_next K fd start t d rest q e hb
    rw [emitted_append, List.append_assoc, ih', pending_cons]
    have hw : t.wr.r ≤ ((d.blob.size - d.offset : Nat) : Int) := by
      have hmem : write_event fd t d ∈ e := by
        rcases hcase with ⟨-, -, -, rfl⟩ | ⟨-, -, -, rfl⟩ | ⟨-, -, -, rfl⟩ <;> simp
      have := hreq _ (List.mem_append_left _ hmem)
      simpa [write_event, Event.within_request] using this
    rcases hcase with ⟨hr, -, rfl, rfl⟩ | ⟨hr, hs, rfl, rfl⟩ | ⟨hr, hs, rfl, rfl⟩
    · have : ¬ 0 < t.wr.r := by omega
      simp [emitted_cons, emitted_nil, write_event, Event.emitted, this, pending_cons]
    · by_cases hpos : 0 < t.wr.r
      · obtain ⟨ho, hle⟩ := advance_offset d t.wr.r hpos hw
        rw [ho, advance_blob] at hs
        simp only [emitted_cons, emitted_nil, write_event, Event.emitted, hpos, gt_iff_lt,
          if_true, List.append_nil]
        rw [take_request d.blob.mem d.offset t.wr.r.toNat hs]
      · have hadv : advance d t.wr.r = d := by simp [advance, hpos]
        rw [hadv] at hs
        have hnil : d.blob.mem.drop d.offset = [] := List.drop_eq_nil_of_le hs
        simp [emitted_cons, emitted_nil, write_event, Event.emitted, hpos, hnil]
    · by_cases hpos : 0 < t.wr.r
      · obtain ⟨ho, hle⟩ := advance_offset d t.wr.r hpos hw
        simp only [emitted_cons, emitted_nil, write_event, Event.emitted, hpos, gt_iff_lt,
          if_true, List.append_nil, pending_cons, advance_blob, ho]
        rw [← List.append_assoc]
        congr 1
        rw [← List.drop_drop]
        exact List.take_append_drop _ _
      · have hadv : advance d t.wr.r = d := by simp [advance, hpos]
        simp [emitted_cons, emitted_nil, write_event, Event.emitted, hpos, hadv, pending_cons]

/-! ## One call at a time -/

theorem held_appended (b : sol_blob) (data : List write_data) (blob : sol_blob) :
    held b (data ++ [{ blob := blob, offset := 0 }]) =
      held b data + (if blob = b then 1 else 0) := by
  rw [held_append, held_cons]
  simp [held]

theorem pending_appended (data : List write_data) (blob : sol_blob) :
    pending (data ++ [{ blob := blob, offset := 0 }]) = pending data ++ blob.mem := by
  rw [pending_append, pending_cons]
  simp [pending]

/-- What `common_process` does to the queue, the descriptor and the reference
counts: it writes nothing; the queue gains the entry exactly when 0 is
returned; references acquired and released differ by the entries gained. -/
theorem common_process_effect (K : Consts) (b : sol_blob) (output : output_data)
    (packet : sol_flow_packet) (env : ProcessEnv) :
    emitted (common_process K output packet env).2.2 = [] ∧
    (common_process K output packet env).2.1.data =
      (if (common_process K output packet env).1 = 0 then
        output.data ++ [{ blob := packet.blob, offset := 0 }] else output.data) ∧
    refs b (common_process K output packet env).2.2 + held b output.data =
      unrefs b (common_process K output packet env).2.2 +
        held b (common_process K output packet env).2.1.data ∧
    ((common_process K output packet env).1 < 0 →
      refs b (common_process K output packet env).2.2 =
        unrefs b (common_process K output packet env).2.2) := by
  have hneg : ¬ -ENOMEM = 0 := by decide
  have hneg' : -ENOMEM < 0 := by decide
  by_cases hpkt : packet.get_blob_ret < 0
  · rw [common_process_not_blob K output packet env hpkt]
    have : ¬ packet.get_blob_ret = 0 := by omega
    simp [emitted_nil, refs_nil, unrefs_nil, this]
  cases happ : env.append_ok with
  | false =>
    rw [common_process_no_slot K output packet env hpkt happ]
    simp [emitted_nil, refs_nil, unrefs_nil, hneg]
  | true =>
    cases href : env.ref_ok with
    | false =>
      rw [common_process_no_ref K output packet env hpkt happ href]
      simp [emitted_nil, refs_nil, unrefs_nil, hneg]
    | true =>
      by_cases hw : output.watch = none
      · by_cases hs : env.set_flag_ret < 0
        · by_cases he : 0 < env.errno
          · rw [common_process_set_flag_failed K output packet env hpkt happ href hw hs he]
            simp only [emitted_cons, emitted_nil, refs_cons, unrefs_cons, refs_nil, unrefs_nil,
              Event.emitted, hneg, if_false]
            simp
          · rw [common_process_errno_not_positive K output packet env hpkt happ href hw hs he]
            simp only [emitted_cons, emitted_nil, refs_cons, unrefs_cons, refs_nil, unrefs_nil,
              Event.emitted, if_true, held_appended]
            simp
            omega
        · by_cases hf : env.fd_add = none
          · rw [common_process_add_failed K output packet env hpkt happ href hw hs hf]
            simp only [emitted_cons, emitted_nil, refs_cons, unrefs_cons, refs_nil, unrefs_nil,
              Event.emitted, hneg, if_false]
            simp
          · rw [common_process_added K output packet env hpkt happ href hw hs hf]
            simp only [emitted_cons, emitted_nil, refs_cons, unrefs_cons, refs_nil, unrefs_nil,
              Event.emitted, if_true, held_appended]
            simp
            omega
      · rw [common_process_armed K output packet env hpkt happ href hw]
        simp only [emitted_cons, emitted_nil, refs_cons, unrefs_cons, refs_nil, unrefs_nil,
          Event.emitted, if_true, held_appended]
        simp
        omega

/-- What lines 107-128 of `watch_cb` do to the queue and the reference counts. -/
theorem watch_cb_finish_effect (b : sol_blob) (output : output_data) (err : Int) :
    emitted (watch_cb_finish output err).2.2 = [] ∧
    refs b (watch_cb_finish output err).2.2 = 0 ∧
    unrefs b (watch_cb_finish output err).2.2 + held b (watch_cb_finish output err).2.1.data =
      held b output.data ∧
    (¬ err < 0 → (watch_cb_finish output err).2.1.data = output.data) := by
  by_cases h : err < 0
  · rw [watch_cb_finish_fatal output err h]
    obtain ⟨n1, n2, n3⟩ := notify_monitors_counts b output (-err)
    obtain ⟨u1, u2, u3⟩ := unref_all_counts b output.data
    simp only [emitted_append, refs_append, unrefs_append, n1, n2, n3, u1, u2, u3]
    simp [held, h]
  · by_cases hd : output.data = []
    · rw [watch_cb_finish_idle output err h hd]
      simp [emitted_nil, refs_nil, unrefs_nil]
    · rw [watch_cb_finish_busy output err h hd]
      simp [emitted_nil, refs_nil, unrefs_nil]

theorem common_close_last (output : output_data) (node : Nat)
    (h : (del_monitor node output.monitors).length = 0) :
    common_close output node =
      ({ output with monitors := del_monitor node output.monitors, watch := none, data := [] },
        (match output.watch with
          | some h => [Event.fd_del h]
          | none => []) ++ unref_all output.data) := by
  simp [common_close, h]

theorem common_close_not_last (output : output_data) (node : Nat)
    (h : (del_monitor node output.monitors).length ≠ 0) :
    common_close output node =
      ({ output with monitors := del_monitor node output.monitors }, []) := by
  simp [common_close, h]

theorem common_close_effect (b : sol_blob) (output : output_data) (node : Nat) :
    emitted (common_close output node).2 = [] ∧
    refs b (common_close output node).2 = 0 ∧
    unrefs b (common_close output node).2 + held b (common_close output node).1.data =
      held b output.data ∧
    ((common_close output node).1.monitors ≠ [] →
      (common_close output node).1.data = output.data) := by
  by_cases h : (del_monitor node output.monitors).length = 0
  · rw [common_close_last output node h]
    obtain ⟨u1, u2, u3⟩ := unref_all_counts b output.data
    have hfd : ∀ ev ∈ (match output.watch with
          | some h => [Event.fd_del h]
          | none => []), ev.is_fd = true ∨ ev.is_packet = true := by
      intro ev hev
      cases hw : output.watch with
      | none => simp [hw] at hev
      | some x =>
        simp only [hw, List.mem_singleton] at hev
        subst hev
        exact Or.inl rfl
    obtain ⟨f1, f2, f3⟩ := side_events_silent b _ hfd
    simp only [emitted_append, refs_append, unrefs_append, f1, f2, f3, u1, u2, u3]
    have hnil : del_monitor node output.monitors = [] := List.length_eq_zero.mp h
    simp [held, hnil]
  · rw [common_close_not_last output node h]
    simp [emitted_nil, refs_nil, unrefs_nil]

theorem watch_cb_effect (K : Consts) (b : sol_blob) (output : output_data) (flags : Nat)
    (env : DrainEnv) (r : Bool) (output' : output_data) (evs : List Event)
    (hcb : watch_cb K output flags env = some (r, output', evs)) :
    refs b evs + held b output.data = unrefs b evs + held b output'.data := by
  rcases watch_cb_some K output flags env r output' evs hcb with ⟨-, he⟩ | ⟨-, hex⟩
  · obtain ⟨-, f2, f3, -⟩ := watch_cb_finish_effect b output (-EBADF)
    rw [← he] at f2 f3
    simp only at f2 f3
    omega
  · obtain ⟨ret, data, evs1, hl, -, ho, he⟩ := hex
    obtain ⟨l1, l2⟩ := output_write_loop_refs K output.fd env.start b env.ticks output.data
      ret data evs1 hl
    obtain ⟨-, f2, f3, -⟩ := watch_cb_finish_effect b { output with data := data } ret
    rw [← ho] at f3
    simp only at f3
    rw [he, refs_append, unrefs_append, f2, l1]
    omega

theorem step_refs (K : Consts) (b : sol_blob) (output : output_data) (op : Op)
    (output' : output_data) (evs : List Event) (h : step K output op = some (output', evs)) :
    refs b evs + held b output.data = unrefs b evs + held b output'.data := by
  cases op with
  | process packet env =>
    simp only [step, Option.some.injEq, Prod.mk.injEq] at h
    obtain ⟨rfl, rfl⟩ := h
    exact (common_process_effect K b output packet env).2.2.1
  | drain flags env =>
    simp only [step] at h
    cases hcb : watch_cb K output flags env with
    | none => simp [hcb] at h
    | some res =>
      obtain ⟨r, o, e⟩ := res
      simp only [hcb, Option.some.injEq, Prod.mk.injEq] at h
      obtain ⟨rfl, rfl⟩ := h
      exact watch_cb_effect K b output flags env r o e hcb
  | attach node append_ret =>
    simp only [step, Option.some.injEq, Prod.mk.injEq] at h
    obtain ⟨rfl, rfl⟩ := h
    by_cases hr : append_ret < 0 <;> simp [common_open, hr, refs_nil, unrefs_nil]
  | detach node =>
    simp only [step, Option.some.injEq] at h
    obtain ⟨-, c2, c3, -⟩ := common_close_effect b output node
    rw [h] at c2 c3
    simp only at c2 c3
    omega
  | connect node flags send_ret =>
    simp only [step, Option.some.injEq, Prod.mk.injEq] at h
    obtain ⟨rfl, rfl⟩ := h
    simp [common_connect, refs_cons, unrefs_cons, refs_nil, unrefs_nil]

theorem run_refs (K : Consts) (b : sol_blob) :
    ∀ (ops : List Op) (output output' : output_data) (evs : List Event),
      run K output ops = some (output', evs) →
      refs b evs + held b output.data = unrefs b evs + held b output'.data := by
  intro ops
  induction ops with
  | nil =>
    intro output output' evs h
    simp only [run, Option.some.injEq, Prod.mk.injEq] at h
    obtain ⟨rfl, rfl⟩ := h
    simp [refs_nil, unrefs_nil]
  | cons op ops ih =>
    intro output output' evs h
    simp only [run] at h
    cases hs : step K output op with
    | none => simp [hs] at h
    | some res =>
      obtain ⟨o1, e1⟩ := res
      rw [hs] at h
      cases hr : run K o1 ops with
      | none => simp [hr] at h
      | some res2 =>
        obtain ⟨o2, e2⟩ := res2
        simp only [hr, Option.some.injEq, Prod.mk.injEq] at h
        obtain ⟨rfl, rfl⟩ := h
        have h1 := step_refs K b output op o1 e1 hs
        have h2 := ih o1 o2 e2 hr
        rw [refs_append, unrefs_append]
        omega

/-- C7: over every sequence of calls (enqueue, drain, attach, detach, connect,
with any answers of the environment), the references to a blob acquired by
`sol_blob_ref` less those released by `sol_blob_unref` are the queue entries
that hold the blob; so, from an empty queue, once no entry holds the blob it
has been released exactly as often as it was acquired, whether its entries
left by a completed write, by the discard of the fatal path or by the discard
of the last detach; and a `common_process` that fails releases what it
acquired and leaves the number of entries holding the blob unchanged. -/
theorem refcount_balance (K : Consts) (b : sol_blob) :
    (∀ (ops : List Op) (output output' : output_data) (evs : List Event),
      run K output ops = some (output', evs) →
      refs b evs + held b output.data = unrefs b evs + held b output'.data) ∧
    (∀ (ops : List Op) (output output' : output_data) (evs : List Event),
      output.data = [] → run K output ops = some (output', evs) →
      refs b evs = unrefs b evs + held b output'.data ∧
      (held b output'.data = 0 → unrefs b evs = refs b evs)) ∧
    (∀ (output : output_data) (packet : sol_flow_packet) (env : ProcessEnv),
      (common_process K output packet env).1 < 0 →
      refs b (common_process K output packet env).2.2 =
        unrefs b (common_process K output packet env).2.2 ∧
      held b (common_process K output packet env).2.1.data = held b output.data) := by
  refine ⟨run_refs K b, ?_, ?_⟩
  · intro ops output output' evs hd h
    have h1 := run_refs K b ops output output' evs h
    have h0 : held b output.data = 0 := by simp [hd, held]
    constructor
    · omega
    · intro hz
      omega
  · intro output packet env hneg
    obtain ⟨-, -, c3, c4⟩ := common_process_effect K b output packet env
    have := c4 hneg
    constructor
    · exact this
    · omega

theorem refcount_balance_witness :
    refs blobA [Event.blob_ref blobA, Event.fd_set_flag 1 0, Event.fd_add 1 10 (some 7),
        Event.blob_ref blobB, Event.write 1 blobA 0 2 0, Event.write 1 blobA 2 1 0,
        Event.blob_unref blobA, Event.write 1 blobB 0 (-1) 11, Event.fd_del 7,
        Event.blob_unref blobB] =
      unrefs blobA [Event.blob_ref blobA, Event.fd_set_flag 1 0, Event.fd_add 1 10 (some 7),
        Event.blob_ref blobB, Event.write 1 blobA 0 2 0, Event.write 1 blobA 2 1 0,
        Event.blob_unref blobA, Event.write 1 blobB 0 (-1) 11, Event.fd_del 7,
        Event.blob_unref blobB] + held blobA [] :=
  ((refcount_balance K0 blobA).2.1
    [Op.attach 1 0, Op.process packetA env_ok, Op.process packetB env_ok,
      Op.drain 2 ⟨t0, [tick_ok 2, tick_ok 1, tick_err 11]⟩, Op.detach 1]
    (stdout_data K0) { stdout_data K0 with data := [], monitors := [], watch := none } _
    rfl (by decide)).1

/-! ## FIFO order -/

theorem watch_cb_err_write (K : Consts) (output : output_data) (flags : Nat) (env : DrainEnv)
    (h : flags &&& K.SOL_FD_FLAGS_ERR = 0) (ret : Int) (data : List write_data)
    (evs : List Event)
    (hl : output_write_loop K output.fd env.start env.ticks output.data = some (ret, data, evs)) :
    watch_cb_err K output flags env = some ret := by
  simp [watch_cb_err, h, output_write, hl]

theorem watch_cb_err_flag_set (K : Consts) (output : output_data) (flags : Nat) (env : DrainEnv)
    (h : flags &&& K.SOL_FD_FLAGS_ERR ≠ 0) :
    watch_cb_err K output flags env = some (-EBADF) := by
  simp [watch_cb_err, h]

theorem watch_cb_bytes (K : Consts) (output : output_data) (flags : Nat)
    (env : DrainEnv) (r : Bool) (output' : output_data) (evs : List Event)
    (hcb : watch_cb K output flags env = some (r, output', evs))
    (hok : (Op.drain flags env).keeps_bytes K output = true) :
    emitted evs ++ pending output'.data = pending output.data := by
  rcases watch_cb_some K output flags env r output' evs hcb with ⟨hf, -⟩ | ⟨hf, hex⟩
  · have hneg : -EBADF < 0 := by decide
    simp [Op.keeps_bytes, watch_cb_err_flag_set K output flags env hf, hcb, hneg] at hok
  · obtain ⟨ret, data, evs1, hl, -, ho, he⟩ := hex
    simp only [Op.keeps_bytes, watch_cb_err_write K output flags env hf ret data evs1 hl, hcb,
      Bool.and_eq_true, decide_eq_true_eq, List.all_eq_true] at hok
    obtain ⟨hret, hreq⟩ := hok
    obtain ⟨f1, -, -, f4⟩ := watch_cb_finish_effect blobA { output with data := data } ret
    have hdata : output'.data = data := by
      rw [ho]
      exact f4 hret
    have hloop := output_write_loop_bytes K output.fd env.start env.ticks output.data ret data
      evs1 hl (by
        intro ev hev
        apply hreq
        rw [he]
        exact List.mem_append_left _ hev)
    rw [he, emitted_append, f1, List.append_nil, hdata]
    exact hloop

theorem step_bytes (K : Consts) (output : output_data) (op : Op)
    (output' : output_data) (evs : List Event) (h : step K output op = some (output', evs))
    (hok : op.keeps_bytes K output = true) :
    emitted evs ++ pending output'.data =
      pending output.data ++ (op.enqueued K output).flatMap sol_blob.mem := by
  cases op with
  | process packet env =>
    simp only [step, Option.some.injEq, Prod.mk.injEq] at h
    obtain ⟨rfl, rfl⟩ := h
    obtain ⟨c1, c2, -, -⟩ := common_process_effect K blobA output packet env
    rw [c1, c2]
    by_cases hz : (common_process K output packet env).1 = 0
    · simp [Op.enqueued, hz, pending_appended]
    · simp [Op.enqueued, hz]
  | drain flags env =>
    simp only [step] at h
    cases hcb : watch_cb K output flags env with
    | none => simp [hcb] at h
    | some res =>
      obtain ⟨r, o, e⟩ := res
      simp only [hcb, Option.some.injEq, Prod.mk.injEq] at h
      obtain ⟨rfl, rfl⟩ := h
      rw [watch_cb_bytes K output flags env r _ _ hcb hok]
      simp [Op.enqueued]
  | attach node append_ret =>
    simp only [step, Option.some.injEq, Prod.mk.injEq] at h
    obtain ⟨rfl, rfl⟩ := h
    by_cases hr : append_ret < 0 <;> simp [common_open, hr, emitted_nil, Op.enqueued]
  | detach node =>
    simp only [step, Option.some.injEq] at h
    obtain ⟨c1, -, -, c4⟩ := common_close_effect blobA output node
    rw [h] at c1 c4
    simp only [Op.keeps_bytes, h, Bool.not_eq_true', List.isEmpty_eq_false] at hok
    simp only at c1 c4
    rw [c1, c4 hok]
    simp [Op.enqueued]
  | connect node flags send_ret =>
    simp only [step, Option.some.injEq, Prod.mk.injEq] at h
    obtain ⟨rfl, rfl⟩ := h
    simp [common_connect, emitted_cons, emitted_nil, Event.emitted, Op.enqueued]

theorem run_bytes (K : Consts) :
    ∀ (ops : List Op) (output output' : output_data) (evs : List Event),
      run K output ops = some (output', evs) → keeps_bytes K output ops = true →
      emitted evs ++ pending output'.data =
        pending output.data ++ (enqueued K output ops).flatMap sol_blob.mem := by
  intro ops
  induction ops with
  | nil =>
    intro output output' evs h _
    simp only [run, Option.some.injEq, Prod.mk.injEq] at h
    obtain ⟨rfl, rfl⟩ := h
    simp [emitted_nil, enqueued]
  | cons op ops ih =>
    intro output output' evs h hok
    simp only [run] at h
    cases hs : step K output op with
    | none => simp [hs] at h
    | some res =>
      obtain ⟨o1, e1⟩ := res
      rw [hs] at h
      cases hr : run K o1 ops with
      | none => simp [hr] at h
      | some res2 =>
        obtain ⟨o2, e2⟩ := res2
        simp only [hr, Option.some.injEq, Prod.mk.injEq] at h
        obtain ⟨rfl, rfl⟩ := h
        simp only [keeps_bytes, hs, Bool.and_eq_true] at hok
        have h1 := step_bytes K output op o1 e1 hs hok.1
        have h2 := ih o1 o2 e2 hr hok.2
        simp only [enqueued, hs, List.flatMap_append]
        rw [emitted_append, List.append_assoc, h2, ← List.append_assoc, h1, List.append_assoc]

/-- C1: take any sequence of calls from a stream whose queue is empty, in which
no drain takes the fatal path, every `write` returns at most the number of
bytes it was asked to write, and no detach leaves the monitor list empty. Then
the bytes put on the descriptor so far, followed by the unwritten remainder
`mem[offset..size)` of each queued entry in queue order, are the concatenation
of the blobs enqueued, in the order of the enqueues; and when the queue is
empty the bytes on the descriptor are exactly that concatenation. -/
theorem fifo_order (K : Consts) (ops : List Op) (output output' : output_data)
    (evs : List Event) (hidle : output.data = [])
    (hok : keeps_bytes K output ops = true)
    (hrun : run K output ops = some (output', evs)) :
    emitted evs ++ pending output'.data = (enqueued K output ops).flatMap sol_blob.mem ∧
    (output'.data = [] → emitted evs = (enqueued K output ops).flatMap sol_blob.mem) := by
  have h := run_bytes K ops output output' evs hrun hok
  rw [hidle] at h
  simp only [pending, List.flatMap_nil, List.nil_append] at h
  refine ⟨by simpa [pending] using h, ?_⟩
  intro hd
  rw [hd] at h
  simpa using h

theorem fifo_order_witness :
    emitted [Event.blob_ref blobA, Event.fd_set_flag 1 0, Event.fd_add 1 10 (some 7),
        Event.blob_ref blobB, Event.write 1 blobA 0 2 0, Event.write 1 blobA 2 (-1) 11,
        Event.write 1 blobA 2 (-1) 4, Event.write 1 blobA 2 1 0, Event.blob_unref blobA,
        Event.write 1 blobB 0 2 0, Event.blob_unref blobB] =
      [104, 105, 10, 111, 107] :=
  ((fifo_order K0
    [Op.attach 1 0, Op.process packetA env_ok, Op.process packetB env_ok,
      Op.drain 2 ⟨t0, [tick_ok 2, tick_err 11]⟩,
      Op.drain 2 ⟨t0, [tick_err 4, tick_ok 1, tick_ok 2]⟩]
    (stdout_data K0) { stdout_data K0 with data := [], monitors := [1], watch := none } _
    rfl (by decide) (by decide)).2 rfl)

/-! ## Detach -/

theorem del_monitor_absent (node : Nat) (ms : List Nat) (h : node ∉ ms) :
    del_monitor node ms = ms := by
  induction ms with
  | nil => rfl
  | cons m ms ih =>
    have hm : ¬ m = node := fun e => h (by simp [e])
    have hrest : node ∉ ms := fun e => h (List.mem_cons_of_mem _ e)
    simp [del_monitor, hm, ih hrest]

theorem del_monitor_single (node : Nat) : del_monitor node [node] = [] := by
  simp [del_monitor]

/-- C11: when the monitor list is exactly `[c]`, `common_close` of `c` leaves the
list empty, the queue empty and the watch handle `NULL`; it calls `sol_fd_del`
on the handle when the watch was armed and then releases the blob of every
queued entry, whatever its offset, once for each entry that holds it; nothing
in this depends on an error having occurred. And for every state and node,
when the list is still non-empty after the removal, the queue and the watch
handle (and port and descriptor) are unchanged and no call is made. -/
theorem last_detach_tears_down (output : output_data) (c : Nat) :
    (output.monitors = [c] →
      (common_close output c).1 = { output with monitors := [], data := [], watch := none } ∧
      (common_close output c).2 =
        (match output.watch with
          | some h => [Event.fd_del h]
          | none => []) ++ unref_all output.data ∧
      (∀ b, unrefs b (common_close output c).2 = held b output.data) ∧
      (∀ b, refs b (common_close output c).2 = 0)) ∧
    (del_monitor c output.monitors ≠ [] →
      common_close output c = ({ output with monitors := del_monitor c output.monitors }, [])) := by
  constructor
  · intro hm
    have hlen : (del_monitor c output.monitors).length = 0 := by
      simp [hm, del_monitor_single]
    have hclose := common_close_last output c hlen
    have hdel : del_monitor c output.monitors = [] := List.length_eq_zero.mp hlen
    refine ⟨by rw [hclose, hdel], by rw [hclose], ?_, ?_⟩
    · intro b
      obtain ⟨-, -, c3, -⟩ := common_close_effect b output c
      rw [hclose] at c3
      simp only [held, List.filter_nil, List.length_nil, Nat.add_zero] at c3
      rw [hclose]
      exact c3
    · intro b
      exact (common_close_effect b output c).2.1
  · intro hne
    apply common_close_not_last
    intro h0
    exact hne (List.length_eq_zero.mp h0)

theorem last_detach_tears_down_witness :
    (common_close busyA 1).1 = { busyA with monitors := [], data := [], watch := none } ∧
    common_close { busyA with monitors := [1, 2] } 1 =
      ({ busyA with monitors := [2] }, []) :=
  ⟨((last_detach_tears_down busyA 1).1 rfl).1,
   (last_detach_tears_down { busyA with monitors := [1, 2] } 1).2 (by decide)⟩

/-- C12, as the code behaves: on the stream that holds one queued blob with the
watch armed and no monitor, `common_close` of node 5, which is not in the
(empty) list, deregisters the watch, releases the blob and empties the queue:
it is not a no-op. -/
theorem detach_absent_on_empty_list_tears_down :
    5 ∉ (orphan_work K0 blobA 7).monitors ∧
    (orphan_work K0 blobA 7).data = [⟨blobA, 0⟩] ∧
    (orphan_work K0 blobA 7).watch = some 7 ∧
    (common_close (orphan_work K0 blobA 7) 5).1.data = [] ∧
    (common_close (orphan_work K0 blobA 7) 5).1.watch = none ∧
    (common_close (orphan_work K0 blobA 7) 5).2 = [Event.fd_del 7, Event.blob_unref blobA] ∧
    (common_close (orphan_work K0 blobA 7) 5).1 ≠ orphan_work K0 blobA 7 := by
  decide

/-- C12, amended: when `c` is not in the monitor list and either the list is not
empty, or the queue is empty and the watch handle `NULL`, `common_close` of `c`
leaves the stream (monitors, queue entries with their order and offsets, watch
handle) exactly as it was and makes no call, so no reference is released. -/
theorem detach_absent_is_noop (output : output_data) (c : Nat)
    (habsent : c ∉ output.monitors)
    (hstate : output.monitors ≠ [] ∨ (output.data = [] ∧ output.watch = none)) :
    common_close output c = (output, []) := by
  have hdel := del_monitor_absent c output.monitors habsent
  by_cases hm : output.monitors = []
  · rcases hstate with h | ⟨hd, hw⟩
    · exact absurd hm h
    · obtain ⟨port, fd, data, monitors, watch⟩ := output
      simp only at hm hd hw
      subst hm hd hw
      simp [common_close, del_monitor, unref_all]
  · have hlen : (del_monitor c output.monitors).length ≠ 0 := by
      rw [hdel]
      exact fun h0 => hm (List.length_eq_zero.mp h0)
    rw [common_close_not_last output c hlen, hdel]

theorem detach_absent_is_noop_witness :
    common_close busyA 5 = (busyA, []) ∧
    common_close (stdout_data K0) 5 = (stdout_data K0, []) :=
  ⟨detach_absent_is_noop busyA 5 (by decide) (Or.inl (by decide)),
   detach_absent_is_noop (stdout_data K0) 5 (by decide) (Or.inr ⟨rfl, rfl⟩)⟩

/-! ## The initial-state query -/

/-- C14: `common_connect` sends the node exactly one packet, the boolean on the
closed port of the stream, whose value is `true` exactly when `fcntl(fd,
F_GETFL)` returned a negative value; it returns what the send returned and
leaves the stream (queue, monitors, watch handle) as it was. -/
theorem connect_reports_closed (output : output_data) (node : Nat) (flags send_ret : Int) :
    (common_connect output node flags send_ret).1 = send_ret ∧
    (common_connect output node flags send_ret).2.1 = output ∧
    (∃ value, (common_connect output node flags send_ret).2.2 =
        [Event.bool_packet node output.port value] ∧ (value = true ↔ flags < 0)) ∧
    (flags < 0 →
      (common_connect output node flags send_ret).2.2 =
        [Event.bool_packet node output.port true]) ∧
    (¬ flags < 0 →
      (common_connect output node flags send_ret).2.2 =
        [Event.bool_packet node output.port false]) := by
  refine ⟨rfl, rfl, ⟨decide (flags < 0), rfl, by simp⟩, ?_, ?_⟩
  · intro h
    simp [common_connect, h]
  · intro h
    simp [common_connect, h]

theorem connect_reports_closed_witness :
    (common_connect busyA 3 (-1) 0).2.2 = [Event.bool_packet 3 0 true] ∧
    (common_connect busyA 3 2 0).2.2 = [Event.bool_packet 3 0 false] :=
  ⟨(connect_reports_closed busyA 3 (-1) 0).2.2.2.1 (by decide),
   (connect_reports_closed busyA 3 2 0).2.2.2.2 (by decide)⟩

/-! ## What `watch_cb` returns -/

/-- C18: for every call of `watch_cb` that returns, fatal or not: it returns
`false` exactly when the queue is empty at the end, and then the watch handle
is `NULL`; otherwise it returns `true` and the watch handle, like the monitors,
is as it was before the call. -/
theorem watch_cb_rearms_iff_work (K : Consts) (output : output_data) (flags : Nat)
    (env : DrainEnv) (b : Bool) (output' : output_data) (evs : List Event)
    (hcb : watch_cb K output flags env = some (b, output', evs)) :
    (b = false ↔ output'.data = []) ∧
    (output'.data = [] → b = false ∧ output'.watch = none) ∧
    (output'.data ≠ [] → b = true ∧ output'.watch = output.watch) ∧
    output'.monitors = output.monitors := by
  have key : ∀ (o : output_data) (err : Int), o.watch = output.watch →
      o.monitors = output.monitors →
      b = (watch_cb_finish o err).1 → output' = (watch_cb_finish o err).2.1 →
      (b = false ↔ output'.data = []) ∧
      (output'.data = [] → b = false ∧ output'.watch = none) ∧
      (output'.data ≠ [] → b = true ∧ output'.watch = output.watch) ∧
      output'.monitors = output.monitors := by
    intro o err hw hm hb ho
    obtain ⟨c1, -, -, c4⟩ := watch_cb_finish_cases o err
    rw [← hb, ← ho] at c4
    rw [← ho] at c1
    rcases c4 with ⟨h1, h2, h3⟩ | ⟨h1, h2, h3⟩
    · simp [h1, h2, h3, c1, hm]
    · subst h3
      simp [h1, h2, hw, hm]
  rcases watch_cb_some K output flags env b output' evs hcb with ⟨-, he⟩ | ⟨-, hex⟩
  · exact key output (-EBADF) rfl rfl (congrArg Prod.fst he)
      (congrArg (fun x => x.2.1) he)
  · obtain ⟨ret, data, evs1, -, hb, ho, -⟩ := hex
    exact key { output with data := data } ret rfl rfl hb ho

theorem watch_cb_rearms_iff_work_witness :
    ((false : Bool) = false ↔ ({ busyA with data := [], watch := none } : output_data).data = []) :=
  (watch_cb_rearms_iff_work K0 busyA 2 ⟨t0, [tick_ok 3]⟩ false
    { busyA with data := [], watch := none }
    [Event.write 1 blobA 0 3 0, Event.blob_unref blobA] (by decide)).1

/-! ## The monitor list -/

theorem del_monitor_eq_erase (node : Nat) (ms : List Nat) :
    del_monitor node ms = ms.erase node := by
  induction ms with
  | nil => rfl
  | cons m ms ih =>
    by_cases hm : m = node
    · simp [del_monitor, hm]
    · simp [del_monitor, hm, ih, List.erase_cons_tail, hm]

theorem common_close_monitors (output : output_data) (node : Nat) :
    (common_close output node).1.monitors = del_monitor node output.monitors := by
  by_cases h : (del_monitor node output.monitors).length = 0
  · rw [common_close_last output node h]
  · rw [common_close_not_last output node h]

theorem common_process_monitors (K : Consts) (output : output_data)
    (packet : sol_flow_packet) (env : ProcessEnv) :
    (common_process K output packet env).2.1.monitors = output.monitors := by
  by_cases hpkt : packet.get_blob_ret < 0
  · rw [common_process_not_blob K output packet env hpkt]
  cases happ : env.append_ok with
  | false => rw [common_process_no_slot K output packet env hpkt happ]
  | true =>
    cases href : env.ref_ok with
    | false => rw [common_process_no_ref K output packet env hpkt happ href]
    | true =>
      by_cases hw : output.watch = none
      · by_cases hs : env.set_flag_ret < 0
        · by_cases he : 0 < env.errno
          · rw [common_process_set_flag_failed K output packet env hpkt happ href hw hs he]
          · rw [common_process_errno_not_positive K output packet env hpkt happ href hw hs he]
        · by_cases hf : env.fd_add = none
          · rw [common_process_add_failed K output packet env hpkt happ href hw hs hf]
          · rw [common_process_added K output packet env hpkt happ href hw hs hf]
      · rw [common_process_armed K output packet env hpkt happ href hw]

/-- What `watch_cb` leaves behind: the monitors untouched, and either an empty
queue with the watch cleared, or a non-empty queue that came from a non-empty
queue, with the watch untouched. -/
theorem watch_cb_after (K : Consts) (output : output_data) (flags : Nat)
    (env : DrainEnv) (b : Bool) (output' : output_data) (evs : List Event)
    (hcb : watch_cb K output flags env = some (b, output', evs)) :
    output'.monitors = output.monitors ∧
    ((output'.data = [] ∧ output'.watch = none) ∨
      (output'.data ≠ [] ∧ output.data ≠ [] ∧ output'.watch = output.watch)) := by
  rcases watch_cb_some K output flags env b output' evs hcb with ⟨-, he⟩ | ⟨-, hex⟩
  · have ho : output' = (watch_cb_finish output (-EBADF)).2.1 :=
      congrArg (fun x => x.2.1) he
    obtain ⟨c1, -, -, c4⟩ := watch_cb_finish_cases output (-EBADF)
    rw [← ho] at c1 c4
    refine ⟨c1, ?_⟩
    rcases c4 with ⟨-, h2, h3⟩ | ⟨-, h2, h3⟩
    · exact Or.inl ⟨h2, h3⟩
    · subst h3
      exact Or.inr ⟨h2, h2, rfl⟩
  · obtain ⟨ret, data, evs1, hl, -, ho, -⟩ := hex
    obtain ⟨-, hempty, -⟩ := output_write_loop_facts K output.fd env.start env.ticks
      output.data ret data evs1 hl
    obtain ⟨c1, -, -, c4⟩ := watch_cb_finish_cases { output with data := data } ret
    rw [← ho] at c1 c4
    refine ⟨c1, ?_⟩
    rcases c4 with ⟨-, h2, h3⟩ | ⟨-, h2, h3⟩
    · exact Or.inl ⟨h2, h3⟩
    · right
      rw [h3] at h2 ⊢
      simp only at h2
      exact ⟨h2, fun h0 => h2 (hempty h0), rfl⟩

/-- The monitor list after one call. -/
theorem step_monitors (K : Consts) (output : output_data) (op : Op)
    (output' : output_data) (evs : List Event) (h : step K output op = some (output', evs)) :
    output'.monitors = op.monitors_after output := by
  cases op with
  | process packet env =>
    simp only [step, Option.some.injEq, Prod.mk.injEq] at h
    obtain ⟨rfl, -⟩ := h
    exact common_process_monitors K output packet env
  | drain flags env =>
    simp only [step] at h
    cases hcb : watch_cb K output flags env with
    | none => simp [hcb] at h
    | some res =>
      obtain ⟨r, o, e⟩ := res
      simp only [hcb, Option.some.injEq, Prod.mk.injEq] at h
      obtain ⟨rfl, -⟩ := h
      exact (watch_cb_after K output flags env r o e hcb).1
  | attach node append_ret =>
    simp only [step, Option.some.injEq, Prod.mk.injEq] at h
    obtain ⟨rfl, -⟩ := h
    by_cases hr : append_ret < 0 <;> simp [common_open, hr, Op.monitors_after]
  | detach node =>
    simp only [step, Option.some.injEq] at h
    have := common_close_monitors output node
    rw [h] at this
    exact this
  | connect node flags send_ret =>
    simp only [step, Option.some.injEq, Prod.mk.injEq] at h
    obtain ⟨rfl, -⟩ := h
    rfl

theorem run_monitors_nodup (K : Consts) :
    ∀ (ops : List Op) (output output' : output_data) (evs : List Event),
      output.monitors.Nodup → attaches_fresh K output ops = true →
      run K output ops = some (output', evs) → output'.monitors.Nodup := by
  intro ops
  induction ops with
  | nil =>
    intro output output' evs hnd _ h
    simp only [run, Option.some.injEq, Prod.mk.injEq] at h
    rw [← h.1]
    exact hnd
  | cons op ops ih =>
    intro output output' evs hnd hfresh h
    simp only [run] at h
    cases hs : step K output op with
    | none => simp [hs] at h
    | some res =>
      obtain ⟨o1, e1⟩ := res
      rw [hs] at h
      cases hr : run K o1 ops with
      | none => simp [hr] at h
      | some res2 =>
        obtain ⟨o2, e2⟩ := res2
        simp only [hr, Option.some.injEq, Prod.mk.injEq] at h
        obtain ⟨rfl, rfl⟩ := h
        simp only [attaches_fresh, hs, Bool.and_eq_true] at hfresh
        have hm := step_monitors K output op o1 e1 hs
        have hnd1 : o1.monitors.Nodup := by
          rw [hm]
          cases op with
          | attach node append_ret =>
            by_cases hneg : append_ret < 0
            · simpa [Op.monitors_after, hneg] using hnd
            · have hfr : node ∉ output.monitors := by simpa using hfresh.1
              simp only [Op.monitors_after, hneg, if_false]
              exact List.Nodup.append hnd (List.nodup_singleton node)
                (by simpa using hfr)
          | detach node =>
            simp only [Op.monitors_after, del_monitor_eq_erase]
            exact hnd.erase node
          | process packet env => exact hnd
          | drain flags env => exact hnd
          | connect node flags send_ret => exact hnd
        exact ih o1 o2 e2 hnd1 hfresh.2 hr

/-- C13, as the code behaves: attaching node 1 twice to the pristine
`stdout_data` succeeds both times and leaves the node twice in the monitor
list, and one detach of node 1 then leaves it in the list. -/
theorem attach_twice_duplicates :
    (common_open (common_open (stdout_data K0) 1 0).2.1 1 0).1 = 0 ∧
    (common_open (common_open (stdout_data K0) 1 0).2.1 1 0).2.1.monitors = [1, 1] ∧
    1 ∈ (common_close (common_open (common_open (stdout_data K0) 1 0).2.1 1 0).2.1 1).1.monitors := by
  decide

/-- C13, amended: the monitor list has no duplicates in every state reached from a
duplicate-free one (the initial state has an empty list) by calls in which no
node is attached while it is in the list; a successful attach of `c` adds one
occurrence of `c` at the tail, so `c` is in the list exactly once when it was
not attached before; a detach of `c` removes one occurrence, so `c` is not in
the list afterwards when it was there at most once. -/
theorem monitors_unique_when_attached_once (K : Consts) :
    (stdout_data K).monitors.Nodup ∧ (stderr_data K).monitors.Nodup ∧
    (∀ (ops : List Op) (output output' : output_data) (evs : List Event),
      output.monitors.Nodup → attaches_fresh K output ops = true →
      run K output ops = some (output', evs) → output'.monitors.Nodup) ∧
    (∀ (output : output_data) (c : Nat) (append_ret : Int), ¬ append_ret < 0 →
      (common_open output c append_ret).1 = 0 ∧
      (common_open output c append_ret).2.1.monitors = output.monitors ++ [c] ∧
      (common_open output c append_ret).2.1.monitors.count c = output.monitors.count c + 1 ∧
      (c ∉ output.monitors → (common_open output c append_ret).2.1.monitors.count c = 1)) ∧
    (∀ (output : output_data) (c : Nat),
      (common_close output c).1.monitors.count c = output.monitors.count c - 1 ∧
      (output.monitors.count c ≤ 1 → c ∉ (common_close output c).1.monitors)) := by
  refine ⟨by simp [stdout_data], by simp [stderr_data], run_monitors_nodup K, ?_, ?_⟩
  · intro output c append_ret hr
    have hopen : common_open output c append_ret =
        (0, { output with monitors := output.monitors ++ [c] }, []) := by
      simp [common_open, hr]
    rw [hopen]
    refine ⟨rfl, rfl, by simp, ?_⟩
    intro hc
    simp [List.count_eq_zero_of_not_mem hc]
  · intro output c
    rw [common_close_monitors, del_monitor_eq_erase]
    have hcount : (output.monitors.erase c).count c = output.monitors.count c - 1 := by
      simp [List.count_erase_self]
    refine ⟨hcount, ?_⟩
    intro hle
    have h0 : (output.monitors.erase c).count c = 0 := by omega
    exact List.count_eq_zero.mp h0

theorem monitors_unique_when_attached_once_witness :
    ({ busyA with monitors := [1, 2] } : output_data).monitors.Nodup ∧
    (common_open busyA 2 0).2.1.monitors.count 2 = 1 ∧
    1 ∉ (common_close busyA 1).1.monitors :=
  ⟨(monitors_unique_when_attached_once K0).2.2.1 [Op.attach 2 0] busyA
      { busyA with monitors := [1, 2] } [] (by decide) (by decide) (by decide),
   ((monitors_unique_when_attached_once K0).2.2.2.1 busyA 2 0 (by decide)).2.2.2 (by decide),
   ((monitors_unique_when_attached_once K0).2.2.2.2 busyA 1).2 (by decide)⟩

/-! ## No work without a monitor -/

theorem step_idle_without_monitors (K : Consts) (output : output_data) (op : Op)
    (output' : output_data) (evs : List Event) (h : step K output op = some (output', evs))
    (hatt : ∀ packet env, op = Op.process packet env → output.monitors ≠ [])
    (hinv : idle_without_monitors output) : idle_without_monitors output' := by
  have hm := step_monitors K output op output' evs h
  intro hempty
  rw [hm] at hempty
  cases op with
  | process packet env =>
    exact absurd hempty (hatt packet env rfl)
  | drain flags env =>
    simp only [step] at h
    cases hcb : watch_cb K output flags env with
    | none => simp [hcb] at h
    | some res =>
      obtain ⟨r, o, e⟩ := res
      simp only [hcb, Option.some.injEq, Prod.mk.injEq] at h
      obtain ⟨rfl, -⟩ := h
      obtain ⟨hd, hw⟩ := hinv hempty
      rcases (watch_cb_after K output flags env r o e hcb).2 with h1 | ⟨-, h2, -⟩
      · exact h1
      · exact absurd hd h2
  | attach node append_ret =>
    simp only [step, Option.some.injEq, Prod.mk.injEq] at h
    obtain ⟨rfl, -⟩ := h
    by_cases hr : append_ret < 0
    · simp only [Op.monitors_after, hr, if_true] at hempty
      simpa [common_open, hr] using hinv hempty
    · simp [Op.monitors_after, hr] at hempty
  | detach node =>
    simp only [step, Option.some.injEq] at h
    simp only [Op.monitors_after] at hempty
    have hlen : (del_monitor node output.monitors).length = 0 := by simp [hempty]
    rw [common_close_last output node hlen, Prod.mk.injEq] at h
    rw [← h.1]
    exact ⟨rfl, rfl⟩
  | connect node flags send_ret =>
    simp only [step, Option.some.injEq, Prod.mk.injEq] at h
    obtain ⟨rfl, -⟩ := h
    exact hinv hempty

theorem run_idle_without_monitors (K : Consts) :
    ∀ (ops : List Op) (output output' : output_data) (evs : List Event),
      idle_without_monitors output → enqueues_attached K output ops = true →
      run K output ops = some (output', evs) → idle_without_monitors output' := by
  intro ops
  induction ops with
  | nil =>
    intro output output' evs hinv _ h
    simp only [run, Option.some.injEq, Prod.mk.injEq] at h
    rw [← h.1]
    exact hinv
  | cons op ops ih =>
    intro output output' evs hinv hatt h
    simp only [run] at h
    cases hs : step K output op with
    | none => simp [hs] at h
    | some res =>
      obtain ⟨o1, e1⟩ := res
      rw [hs] at h
      cases hr : run K o1 ops with
      | none => simp [hr] at h
      | some res2 =>
        obtain ⟨o2, e2⟩ := res2
        simp only [hr, Option.some.injEq, Prod.mk.injEq] at h
        obtain ⟨rfl, rfl⟩ := h
        simp only [enqueues_attached, hs, Bool.and_eq_true] at hatt
        have h1 : idle_without_monitors o1 := by
          apply step_idle_without_monitors K output op o1 e1 hs _ hinv
          intro packet env hop
          subst hop
          simpa using hatt.1
        exact ih o1 o2 e2 h1 hatt.2 hr

/-- C19: the initial `stdout_data` and `stderr_data` have no monitor, no queued
entry and no watch; and in every state reached from a state where "no monitor
implies empty queue and `NULL` watch" holds, by any sequence of attach, detach,
drain, connect, and enqueue made only while at least one node is attached, an
empty monitor list again implies an empty queue and a `NULL` watch handle. -/
theorem no_work_without_monitors (K : Consts) :
    idle_without_monitors (stdout_data K) ∧ idle_without_monitors (stderr_data K) ∧
    (∀ (ops : List Op) (output output' : output_data) (evs : List Event),
      idle_without_monitors output → enqueues_attached K output ops = true →
      run K output ops = some (output', evs) →
      output'.monitors = [] → output'.data = [] ∧ output'.watch = none) := by
  refine ⟨fun _ => ⟨rfl, rfl⟩, fun _ => ⟨rfl, rfl⟩, ?_⟩
  intro ops output output' evs hinv hatt hrun
  exact run_idle_without_monitors K ops output output' evs hinv hatt hrun

theorem no_work_without_monitors_witness :
    ({ stdout_data K0 with data := [], monitors := [], watch := none } : output_data).data = [] ∧
    ({ stdout_data K0 with data := [], monitors := [], watch := none } : output_data).watch =
      none :=
  (no_work_without_monitors K0).2.2
    [Op.attach 1 0, Op.process packetA env_ok, Op.drain 2 ⟨t0, [tick_ok 1, tick_err 11]⟩,
      Op.detach 1]
    (stdout_data K0) { stdout_data K0 with data := [], monitors := [], watch := none }
    [Event.blob_ref blobA, Event.fd_set_flag 1 0, Event.fd_add 1 10 (some 7),
      Event.write 1 blobA 0 1 0, Event.write 1 blobA 1 (-1) 11, Event.fd_del 7,
      Event.blob_unref blobA]
    (fun _ => ⟨rfl, rfl⟩) (by decide) (by decide) rfl

/-! ## Offsets -/

theorem output_write_loop_offsets (K : Consts) (fd : Int) (start : timespec)
    (ticks : List Tick) (data : List write_data) (ret : Int) (data' : List write_data)
    (evs : List Event)
    (h : output_write_loop K fd start ticks data = some (ret, data', evs)) :
    offsets_in_range data → offsets_in_range data' := by
  refine output_write_loop_rec K fd start
    (fun data _ data' _ => offsets_in_range data → offsets_in_range data')
    ?_ ?_ ?_ ticks data ret data' evs h
  · exact fun h0 => h0
  · intro t d rest ret data evs hb h0
    obtain ⟨rfl, -⟩ := output_write_body_stop K fd start t d rest ret data evs hb
    exact h0
  · intro t d rest q e ret data evs hb ih h0
    apply ih
    obtain ⟨-, hcase⟩ := output_write_body_next K fd start t d rest q e hb
    rcases hcase with ⟨-, -, rfl, -⟩ | ⟨-, -, rfl, -⟩ | ⟨-, hs, rfl, -⟩
    · exact h0
    · exact fun w hw => h0 w (List.mem_cons_of_mem _ hw)
    · intro w hw
      rcases List.mem_cons.mp hw with rfl | hw'
      · omega
      · exact h0 w (List.mem_cons_of_mem _ hw')

theorem step_offsets (K : Consts) (output : output_data) (op : Op)
    (output' : output_data) (evs : List Event) (h : step K output op = some (output', evs))
    (hinv : offsets_in_range output.data) : offsets_in_range output'.data := by
  cases op with
  | process packet env =>
    simp only [step, Option.some.injEq, Prod.mk.injEq] at h
    obtain ⟨rfl, -⟩ := h
    rw [(common_process_effect K blobA output packet env).2.1]
    by_cases hz : (common_process K output packet env).1 = 0
    · simp only [hz, if_true]
      intro w hw
      rcases List.mem_append.mp hw with h1 | h1
      · exact hinv w h1
      · simp only [List.mem_singleton] at h1
        subst h1
        exact Nat.zero_le _
    · simpa [hz] using hinv
  | drain flags env =>
    simp only [step] at h
    cases hcb : watch_cb K output flags env with
    | none => simp [hcb] at h
    | some res =>
      obtain ⟨r, o, e⟩ := res
      simp only [hcb, Option.some.injEq, Prod.mk.injEq] at h
      obtain ⟨rfl, -⟩ := h
      rcases watch_cb_some K output flags env r o e hcb with ⟨-, he⟩ | ⟨-, hex⟩
      · have ho : o = (watch_cb_finish output (-EBADF)).2.1 := congrArg (fun x => x.2.1) he
        have hneg : -EBADF < 0 := by decide
        rw [watch_cb_finish_fatal output _ hneg] at ho
        rw [ho]
        intro w hw
        simp at hw
      · obtain ⟨ret, data, evs1, hl, -, ho, -⟩ := hex
        have hdata := output_write_loop_offsets K output.fd env.start env.ticks output.data
          ret data evs1 hl hinv
        obtain ⟨-, -, -, c4⟩ := watch_cb_finish_cases { output with data := data } ret
        rw [← ho] at c4
        rcases c4 with ⟨-, h2, -⟩ | ⟨-, -, h3⟩
        · rw [h2]
          intro w hw
          simp at hw
        · rw [h3]
          exact hdata
  | attach node append_ret =>
    simp only [step, Option.some.injEq, Prod.mk.injEq] at h
    obtain ⟨rfl, -⟩ := h
    by_cases hr : append_ret < 0 <;> simpa [common_open, hr] using hinv
  | detach node =>
    simp only [step, Option.some.injEq] at h
    by_cases hlen : (del_monitor node output.monitors).length = 0
    · rw [common_close_last output node hlen, Prod.mk.injEq] at h
      rw [← h.1]
      intro w hw
      simp at hw
    · rw [common_close_not_last output node hlen, Prod.mk.injEq] at h
      rw [← h.1]
      exact hinv
  | connect node flags send_ret =>
    simp only [step, Option.some.injEq, Prod.mk.injEq] at h
    obtain ⟨rfl, -⟩ := h
    exact hinv

theorem run_offsets (K : Consts) :
    ∀ (ops : List Op) (output output' : output_data) (evs : List Event),
      offsets_in_range output.data → run K output ops = some (output', evs) →
      offsets_in_range output'.data := by
  intro ops
  induction ops with
  | nil =>
    intro output output' evs hinv h
    simp only [run, Option.some.injEq, Prod.mk.injEq] at h
    rw [← h.1]
    exact hinv
  | cons op ops ih =>
    intro output output' evs hinv h
    simp only [run] at h
    cases hs : step K output op with
    | none => simp [hs] at h
    | some res =>
      obtain ⟨o1, e1⟩ := res
      rw [hs] at h
      cases hr : run K o1 ops with
      | none => simp [hr] at h
      | some res2 =>
        obtain ⟨o2, e2⟩ := res2
        simp only [hr, Option.some.injEq, Prod.mk.injEq] at h
        obtain ⟨rfl, rfl⟩ := h
        exact ih o1 o2 e2 (step_offsets K output op o1 e1 hs hinv) hr

/-- C16: every queued entry has `offset ≤ blob->size` in every state reached by
enqueue, drain, attach, detach and connect from a state where that holds (the
initial queues are empty), whatever the writes return. When a `write` on the
head returns `r > 0`, at most the number of bytes asked for, the offset of the
head becomes `offset + r` without wrapping and the entries behind it are
untouched; the head is dropped, and its blob released, exactly when
`offset + r` is the size of the blob. A `write` that returns 0 leaves the
offsets as they are and drops the head exactly when its offset is already the
size of the blob. -/
theorem offsets_stay_in_range (K : Consts) :
    offsets_in_range (stdout_data K).data ∧ offsets_in_range (stderr_data K).data ∧
    (∀ (ops : List Op) (output output' : output_data) (evs : List Event),
      offsets_in_range output.data → run K output ops = some (output', evs) →
      offsets_in_range output'.data) ∧
    (∀ (fd : Int) (start : timespec) (t : Tick) (d : write_data) (rest : List write_data),
      budget_exceeded K start t.now = false → 0 < t.wr.r →
      t.wr.r ≤ ((d.blob.size - d.offset : Nat) : Int) →
      d.offset + t.wr.r.toNat ≤ d.blob.size ∧
      output_write_body K fd start t d rest =
        if d.offset + t.wr.r.toNat = d.blob.size then
          Iter.next rest [write_event fd t d, Event.blob_unref d.blob]
        else
          Iter.next ({ d with offset := d.offset + t.wr.r.toNat } :: rest)
            [write_event fd t d]) ∧
    (∀ (fd : Int) (start : timespec) (t : Tick) (d : write_data) (rest : List write_data),
      budget_exceeded K start t.now = false → t.wr.r = 0 → d.offset ≤ d.blob.size →
      output_write_body K fd start t d rest =
        if d.offset = d.blob.size then
          Iter.next rest [write_event fd t d, Event.blob_unref d.blob]
        else Iter.next (d :: rest) [write_event fd t d]) := by
  refine ⟨by simp [offsets_in_range, stdout_data], by simp [offsets_in_range, stderr_data],
    run_offsets K, ?_, ?_⟩
  · intro fd start t d rest hb hpos hreq
    obtain ⟨ho, hle⟩ := advance_offset d t.wr.r hpos hreq
    refine ⟨hle, ?_⟩
    rw [body_wrote K fd start t d rest hb (by omega)]
    have hadv : advance d t.wr.r = { d with offset := d.offset + t.wr.r.toNat } := by
      have hb' := advance_blob d t.wr.r
      cases hd : advance d t.wr.r with
      | mk blob offset =>
        rw [hd] at ho hb'
        simp only at ho hb'
        rw [ho, hb']
    by_cases heq : d.offset + t.wr.r.toNat = d.blob.size
    · rw [if_pos heq, done_drop _ _ _ (by rw [advance_blob, ho]; omega), advance_blob]
    · rw [if_neg heq, done_keep _ _ _ (by rw [advance_blob, ho]; omega), hadv]
  · intro fd start t d rest hb hz hle
    rw [body_wrote K fd start t d rest hb (by omega)]
    have hadv : advance d t.wr.r = d := by simp [advance, hz]
    rw [hadv]
    by_cases heq : d.offset = d.blob.size
    · rw [if_pos heq, done_drop _ _ _ (by omega)]
    · rw [if_neg heq, done_keep _ _ _ (by omega)]

theorem offsets_stay_in_range_witness :
    output_write_body K0 1 t0 (tick_ok 2) ⟨blobA, 0⟩ [⟨blobB, 0⟩] =
      Iter.next [⟨blobA, 2⟩, ⟨blobB, 0⟩] [Event.write 1 blobA 0 2 0] ∧
    output_write_body K0 1 t0 (tick_ok 1) ⟨blobA, 2⟩ [⟨blobB, 0⟩] =
      Iter.next [⟨blobB, 0⟩] [Event.write 1 blobA 2 1 0, Event.blob_unref blobA] :=
  ⟨((offsets_stay_in_range K0).2.2.2.1 1 t0 (tick_ok 2) ⟨blobA, 0⟩ [⟨blobB, 0⟩] (by decide)
      (by decide) (by decide)).2,
   ((offsets_stay_in_range K0).2.2.2.1 1 t0 (tick_ok 1) ⟨blobA, 2⟩ [⟨blobB, 0⟩] (by decide)
      (by decide) (by decide)).2⟩

/-! ## A partial write followed by the rest -/

theorem output_write_loop_nil (K : Consts) (fd : Int) (start : timespec) (ticks : List Tick) :
    output_write_loop K fd start ticks [] = some (0, [], []) := by
  cases ticks <;> rfl

theorem advance_within (d : write_data) (r : Int) (hr : 0 < r)
    (hreq : r ≤ ((d.blob.size - d.offset : Nat) : Int)) :
    advance d r = { d with offset := d.offset + r.toNat } := by
  obtain ⟨ho, -⟩ := advance_offset d r hr hreq
  have hb := advance_blob d r
  cases hd : advance d r with
  | mk blob offset =>
    rw [hd] at ho hb
    simp only at ho hb
    rw [ho, hb]

/-- C15: a blob of `n > 0` bytes is enqueued on a stream with an empty queue and no
watch (whatever nodes are attached), with every collaborator succeeding; `k` is
any number with `0 < k < n`. The enqueue returns 0 and leaves the one entry at
offset 0 with the watch armed. A first drain whose `write` returns `k` and whose
next `write` fails with `EAGAIN` returns `true`, leaves that single entry at
offset `k` and the watch armed. A second drain whose `write` returns the `n - k`
bytes left returns `false`, leaves the queue empty and the watch handle `NULL`.
Over the three calls the blob is acquired once and released once. -/
theorem partial_then_complete (K : Consts) (output : output_data) (packet : sol_flow_packet)
    (env : ProcessEnv) (k : Nat) (flags1 flags2 : Nat) (start1 start2 : timespec)
    (t1 t2 t3 : Tick) (post1 post2 : List Tick)
    (hidle : output.data = []) (hwatch : output.watch = none)
    (hpkt : ¬ packet.get_blob_ret < 0) (happ : env.append_ok = true)
    (href : env.ref_ok = true) (hset : ¬ env.set_flag_ret < 0) (hadd : env.fd_add ≠ none)
    (hk0 : 0 < k) (hkn : k < packet.blob.size)
    (hf1 : flags1 &&& K.SOL_FD_FLAGS_ERR = 0) (hf2 : flags2 &&& K.SOL_FD_FLAGS_ERR = 0)
    (hb1 : budget_exceeded K start1 t1.now = false) (hr1 : t1.wr.r = (k : Int))
    (hb2 : budget_exceeded K start1 t2.now = false) (hr2 : t2.wr.r < 0)
    (he2 : t2.wr.errno = EAGAIN)
    (hb3 : budget_exceeded K start2 t3.now = false)
    (hr3 : t3.wr.r = ((packet.blob.size - k : Nat) : Int)) :
    common_process K output packet env =
      (0, { output with data := [⟨packet.blob, 0⟩], watch := env.fd_add },
        [Event.blob_ref packet.blob, Event.fd_set_flag output.fd env.set_flag_ret,
          Event.fd_add output.fd (K.SOL_FD_FLAGS_OUT ||| K.SOL_FD_FLAGS_ERR) env.fd_add]) ∧
    watch_cb K { output with data := [⟨packet.blob, 0⟩], watch := env.fd_add } flags1
        ⟨start1, t1 :: t2 :: post1⟩ =
      some (true, { output with data := [⟨packet.blob, k⟩], watch := env.fd_add },
        [write_event output.fd t1 ⟨packet.blob, 0⟩,
          write_event output.fd t2 ⟨packet.blob, k⟩]) ∧
    watch_cb K { output with data := [⟨packet.blob, k⟩], watch := env.fd_add } flags2
        ⟨start2, t3 :: post2⟩ =
      some (false, { output with data := [], watch := none },
        [write_event output.fd t3 ⟨packet.blob, k⟩, Event.blob_unref packet.blob]) ∧
    refs packet.blob
      ([Event.blob_ref packet.blob, Event.fd_set_flag output.fd env.set_flag_ret,
          Event.fd_add output.fd (K.SOL_FD_FLAGS_OUT ||| K.SOL_FD_FLAGS_ERR) env.fd_add] ++
        [write_event output.fd t1 ⟨packet.blob, 0⟩, write_event output.fd t2 ⟨packet.blob, k⟩] ++
        [write_event output.fd t3 ⟨packet.blob, k⟩, Event.blob_unref packet.blob]) = 1 ∧
    unrefs packet.blob
      ([Event.blob_ref packet.blob, Event.fd_set_flag output.fd env.set_flag_ret,
          Event.fd_add output.fd (K.SOL_FD_FLAGS_OUT ||| K.SOL_FD_FLAGS_ERR) env.fd_add] ++
        [write_event output.fd t1 ⟨packet.blob, 0⟩, write_event output.fd t2 ⟨packet.blob, k⟩] ++
        [write_event output.fd t3 ⟨packet.blob, k⟩, Event.blob_unref packet.blob]) = 1 := by
  refine ⟨?_, ?_, ?_, ?_, ?_⟩
  · rw [common_process_added K output packet env hpkt happ href hwatch hset hadd, hidle]
    rfl
  · have hadv : advance ⟨packet.blob, 0⟩ t1.wr.r = ⟨packet.blob, k⟩ := by
      rw [advance_within _ _ (by omega) (by simp only [hr1]; omega), hr1]
      simp
    have hbody : output_write_body K output.fd start1 t1 ⟨packet.blob, 0⟩ [] =
        Iter.next [⟨packet.blob, k⟩] [write_event output.fd t1 ⟨packet.blob, 0⟩] := by
      rw [body_wrote K _ start1 t1 _ _ hb1 (by omega), hadv, done_keep _ _ _ (by simpa using hkn)]
    have hpre : output_write_after K output.fd start1 [t1] [⟨packet.blob, 0⟩] =
        some ([⟨packet.blob, k⟩], [write_event output.fd t1 ⟨packet.blob, 0⟩]) := by
      simp [output_write_after, hbody]
    have hstop := body_eagain K output.fd start1 t2 ⟨packet.blob, k⟩ [] hb2 hr2 he2
    have := (drain_paused K { output with data := [⟨packet.blob, 0⟩], watch := env.fd_add }
      flags1 start1 [t1] t2 post1 ⟨packet.blob, k⟩ [] _ _ hf1 hpre hstop).2
    simpa using this
  · have hadv : advance ⟨packet.blob, k⟩ t3.wr.r = ⟨packet.blob, packet.blob.size⟩ := by
      rw [advance_within _ _ (by omega) (by simp only [hr3]; omega), hr3]
      simp only [Int.toNat_ofNat, write_data.mk.injEq, true_and]
      omega
    have hbody : output_write_body K output.fd start2 t3 ⟨packet.blob, k⟩ [] =
        Iter.next [] [write_event output.fd t3 ⟨packet.blob, k⟩,
          Event.blob_unref packet.blob] := by
      rw [body_wrote K _ start2 t3 _ _ hb3 (by omega), hadv, done_drop _ _ _ (by simp)]
    have hl : output_write_loop K output.fd start2 (t3 :: post2) [⟨packet.blob, k⟩] =
        some (0, [], [write_event output.fd t3 ⟨packet.blob, k⟩,
          Event.blob_unref packet.blob]) := by
      simp [output_write_loop, hbody, output_write_loop_nil]
    rw [watch_cb_write K _ flags2 ⟨start2, t3 :: post2⟩ hf2 0 []
      [write_event output.fd t3 ⟨packet.blob, k⟩, Event.blob_unref packet.blob] hl]
    rw [watch_cb_finish_idle _ 0 (by decide) rfl]
    simp
  · simp [refs_append, refs_cons, refs_nil, write_event]
  · simp [unrefs_append, unrefs_cons, unrefs_nil, write_event]

theorem partial_then_complete_witness :
    watch_cb K0 { idle1 with data := [⟨blob10, 0⟩], watch := some 7 } 2
        ⟨t0, tick_ok 4 :: tick_err 11 :: []⟩ =
      some (true, { idle1 with data := [⟨blob10, 4⟩], watch := some 7 },
        [Event.write 1 blob10 0 4 0, Event.write 1 blob10 4 (-1) 11]) ∧
    watch_cb K0 { idle1 with data := [⟨blob10, 4⟩], watch := some 7 } 2
        ⟨t0, tick_ok 6 :: []⟩ =
      some (false, { idle1 with data := [], watch := none },
        [Event.write 1 blob10 4 6 0, Event.blob_unref blob10]) :=
  have h := partial_then_complete K0 idle1 packet10 env_ok 4 2 2 t0 t0 (tick_ok 4)
    (tick_err 11) (tick_ok 6) [] [] rfl rfl (by decide) (by decide) (by decide) (by decide)
    (by decide) (by decide) (by decide) (by decide) (by decide) (by decide) (by decide)
    (by decide) (by decide) (by decide) (by decide) (by decide)
  ⟨h.2.1, h.2.2.1⟩

/-! ## An interrupted `write` -/

theorem outcome_prepend {α β : Type} (a b : α × β × List Event) (e : List Event)
    (h : outcome a = outcome b) :
    outcome (a.1, a.2.1, e ++ a.2.2) = outcome (b.1, b.2.1, e ++ b.2.2) := by
  simp only [outcome, Prod.mk.injEq] at h ⊢
  obtain ⟨h1, h2, h3, h4⟩ := h
  refine ⟨h1, h2, ?_, ?_⟩
  · rw [emitted_append, emitted_append, h3]
  · rw [List.filter_append, List.filter_append, h4]

theorem output_write_loop_eintr (K : Consts) (fd : Int) (start : timespec) (tE : Tick)
    (post : List Tick) (hb : budget_exceeded K start tE.now = false) (hr : tE.wr.r < 0)
    (he : tE.wr.errno = EINTR) :
    ∀ (pre : List Tick) (data : List write_data),
      (output_write_loop K fd start (pre ++ tE :: post) data).map outcome =
        (output_write_loop K fd start (pre ++ post) data).map outcome := by
  intro pre
  induction pre with
  | nil =>
    intro data
    cases data with
    | nil => simp [output_write_loop_nil]
    | cons d rest =>
      simp only [List.nil_append, output_write_loop, body_eintr K fd start tE d rest hb hr he]
      cases hl : output_write_loop K fd start post (d :: rest) with
      | none => rfl
      | some res =>
        obtain ⟨ret, data', evs'⟩ := res
        have hnot : ¬ 0 < tE.wr.r := by omega
        simp [outcome, emitted_append, emitted_cons, emitted_nil, write_event, Event.emitted,
          hnot, Event.is_write, List.filter_cons]
  | cons t ts ih =>
    intro data
    cases data with
    | nil => simp [output_write_loop_nil]
    | cons d rest =>
      simp only [List.cons_append, output_write_loop, List.append_eq]
      cases hbody : output_write_body K fd start t d rest with
      | stop ret1 data1 evs1 => rfl
      | next q e =>
        have hih := ih q
        dsimp only
        cases hA : output_write_loop K fd start (ts ++ tE :: post) q with
        | none =>
          cases hB : output_write_loop K fd start (ts ++ post) q with
          | none => rfl
          | some b => simp [hA, hB] at hih
        | some a =>
          cases hB : output_write_loop K fd start (ts ++ post) q with
          | none => simp [hA, hB] at hih
          | some b =>
            rw [hA, hB] at hih
            simp only [Option.map_some', Option.some.injEq] at hih ⊢
            exact outcome_prepend a b e hih

theorem output_write_eq_map (K : Consts) (output : output_data) (env : DrainEnv) :
    output_write K output env =
      (output_write_loop K output.fd env.start env.ticks output.data).map
        (fun r => (r.1, { output with data := r.2.1 }, r.2.2)) := by
  unfold output_write
  cases output_write_loop K output.fd env.start env.ticks output.data with
  | none => rfl
  | some res => rfl

theorem watch_cb_eq_map (K : Consts) (output : output_data) (flags : Nat) (env : DrainEnv)
    (hf : flags &&& K.SOL_FD_FLAGS_ERR = 0) :
    watch_cb K output flags env =
      (output_write_loop K output.fd env.start env.ticks output.data).map
        (fun r => ((watch_cb_finish { output with data := r.2.1 } r.1).1,
          (watch_cb_finish { output with data := r.2.1 } r.1).2.1,
          r.2.2 ++ (watch_cb_finish { output with data := r.2.1 } r.1).2.2)) := by
  cases hl : output_write_loop K output.fd env.start env.ticks output.data with
  | none => simp [watch_cb, hf, output_write, hl]
  | some res =>
    obtain ⟨ret, data, evs⟩ := res
    rw [watch_cb_write K output flags env hf ret data evs hl]
    rfl

theorem output_write_after_append (K : Consts) (fd : Int) (start : timespec) :
    ∀ (pre : List Tick) (data : List write_data) (q : List write_data) (evs0 : List Event)
      (more : List Tick),
      output_write_after K fd start pre data = some (q, evs0) →
      output_write_after K fd start (pre ++ more) data =
        match output_write_after K fd start more q with
        | none => none
        | some (q', evs') => some (q', evs0 ++ evs') := by
  intro pre
  induction pre with
  | nil =>
    intro data q evs0 more h
    simp only [output_write_after, Option.some.injEq, Prod.mk.injEq] at h
    obtain ⟨rfl, rfl⟩ := h
    cases hl : output_write_after K fd start more data with
    | none => simpa using hl
    | some res => simpa using hl
  | cons t ts ih =>
    intro data q evs0 more h
    cases data with
    | nil => simp [output_write_after] at h
    | cons d rest =>
      simp only [output_write_after] at h
      cases hb : output_write_body K fd start t d rest with
      | stop ret1 data1 evs1 => simp [hb] at h
      | next q1 e1 =>
        rw [hb] at h
        cases ha : output_write_after K fd start ts q1 with
        | none => simp [ha] at h
        | some res =>
          obtain ⟨q2, e2⟩ := res
          simp only [ha, Option.some.injEq, Prod.mk.injEq] at h
          obtain ⟨rfl, rfl⟩ := h
          have := ih q1 q2 e2 more ha
          simp only [List.cons_append, output_write_after, hb, List.append_eq]
          rw [this]
          cases hl : output_write_after K fd start more q2 with
          | none => simp
          | some res => simp [List.append_assoc]

/-- C17: take any call of `output_write` and insert, at any position of the
observations of its iterations, an iteration that is within the time budget and
whose `write` fails with `EINTR`. The value returned, the final queue, the bytes
put on the descriptor and the releases are the same as without it (a call that
does not return on the one sequence does not return on the other), and `watch_cb`
gives the same result, queue and watch handle and sends the same packets. The
inserted iteration leaves the queue as it is, so the next one attempts the same
`write` (same head, same offset); and that next iteration checks the time
budget first: when it is over the budget the call returns 0 with the queue
unchanged. -/
theorem eintr_is_transparent (K : Consts) (output : output_data) (flags : Nat)
    (start : timespec) (pre post : List Tick) (tE : Tick)
    (hb : budget_exceeded K start tE.now = false) (hr : tE.wr.r < 0)
    (he : tE.wr.errno = EINTR) :
    (output_write K output ⟨start, pre ++ tE :: post⟩).map outcome =
      (output_write K output ⟨start, pre ++ post⟩).map outcome ∧
    (watch_cb K output flags ⟨start, pre ++ tE :: post⟩).map outcome =
      (watch_cb K output flags ⟨start, pre ++ post⟩).map outcome ∧
    (∀ d rest, output_write_body K output.fd start tE d rest =
      Iter.next (d :: rest) [Event.write output.fd d.blob d.offset tE.wr.r EINTR]) ∧
    (∀ d rest evs0,
      output_write_after K output.fd start pre output.data = some (d :: rest, evs0) →
      output_write_after K output.fd start (pre ++ [tE]) output.data =
        some (d :: rest, evs0 ++ [Event.write output.fd d.blob d.offset tE.wr.r EINTR]) ∧
      ∀ t, budget_exceeded K start t.now = true →
        output_write K output ⟨start, pre ++ tE :: t :: post⟩ =
          some (0, { output with data := d :: rest },
            evs0 ++ [Event.write output.fd d.blob d.offset tE.wr.r EINTR])) := by
  have hloop := output_write_loop_eintr K output.fd start tE post hb hr he pre output.data
  have hbody : ∀ d rest, output_write_body K output.fd start tE d rest =
      Iter.next (d :: rest) [Event.write output.fd d.blob d.offset tE.wr.r EINTR] := by
    intro d rest
    rw [body_eintr K output.fd start tE d rest hb hr he, write_event, he]
  refine ⟨?_, ?_, hbody, ?_⟩
  · have key : ∀ x : Option (Int × List write_data × List Event),
        Option.map outcome
          (Option.map (fun r => (r.1, { output with data := r.2.1 }, r.2.2)) x) =
        Option.map (fun p => (p.1, { output with data := p.2.1 }, p.2.2.1, p.2.2.2))
          (Option.map outcome x) := by
      intro x
      cases x with
      | none => rfl
      | some r => rfl
    rw [output_write_eq_map, output_write_eq_map, key, key]
    exact congrArg _ hloop
  · by_cases hf : flags &&& K.SOL_FD_FLAGS_ERR = 0
    · have key : ∀ x : Option (Int × List write_data × List Event),
          Option.map outcome
            (Option.map (fun r => ((watch_cb_finish { output with data := r.2.1 } r.1).1,
              (watch_cb_finish { output with data := r.2.1 } r.1).2.1,
              r.2.2 ++ (watch_cb_finish { output with data := r.2.1 } r.1).2.2)) x) =
          Option.map (fun p => ((watch_cb_finish { output with data := p.2.1 } p.1).1,
              (watch_cb_finish { output with data := p.2.1 } p.1).2.1,
              p.2.2.1 ++ emitted (watch_cb_finish { output with data := p.2.1 } p.1).2.2,
              p.2.2.2 ++ (watch_cb_finish { output with data := p.2.1 } p.1).2.2.filter
                fun ev => !ev.is_write))
            (Option.map outcome x) := by
        intro x
        cases x with
        | none => rfl
        | some r => simp [outcome, emitted_append, List.filter_append]
      rw [watch_cb_eq_map K output flags _ hf, watch_cb_eq_map K output flags _ hf, key, key]
      exact congrArg _ hloop
    · rw [watch_cb_err_flag K output flags _ hf, watch_cb_err_flag K output flags _ hf]
  · intro d rest evs0 hpre
    have hafter : output_write_after K output.fd start (pre ++ [tE]) output.data =
        some (d :: rest, evs0 ++ [Event.write output.fd d.blob d.offset tE.wr.r EINTR]) := by
      rw [output_write_after_append K output.fd start pre output.data (d :: rest) evs0 [tE] hpre]
      simp [output_write_after, hbody]
    refine ⟨hafter, ?_⟩
    intro t ht
    have hstop := body_late K output.fd start t d rest ht
    have := (drain_paused K output 0 start (pre ++ [tE]) t post d rest _ [] (by simp)
      hafter hstop).1
    simpa using this

theorem eintr_is_transparent_witness :
    (watch_cb K0 busyA 2 ⟨t0, [tick_ok 2] ++ tick_err 4 :: [tick_ok 1]⟩).map outcome =
      (watch_cb K0 busyA 2 ⟨t0, [tick_ok 2] ++ [tick_ok 1]⟩).map outcome :=
  (eintr_is_transparent K0 busyA 2 t0 [tick_ok 2] [tick_ok 1] (tick_err 4) (by decide)
    (by decide) (by decide)).2.1

/-! ## How long the loop runs -/

theorem work_left_cons (w : write_data) (ws : List write_data) :
    work_left (w :: ws) = (w.blob.size - w.offset) + work_left ws + 1 := by
  simp only [work_left, pending_cons, List.length_append, List.length_drop, List.length_cons,
    sol_blob.size]
  omega

theorem body_next_work_left (K : Consts) (fd : Int) (start : timespec) (t : Tick)
    (d : write_data) (rest q : List write_data) (e : List Event)
    (hbody : output_write_body K fd start t d rest = Iter.next q e)
    (hprog : (budget_exceeded K start t.now || t.progresses d) = true) :
    work_left q + 1 ≤ work_left (d :: rest) := by
  obtain ⟨hb, hcase⟩ := output_write_body_next K fd start t d rest q e hbody
  simp only [hb, Bool.false_or, Tick.progresses, Bool.or_eq_true, Bool.and_eq_true,
    decide_eq_true_eq] at hprog
  rw [work_left_cons]
  rcases hcase with ⟨hr, he, -, -⟩ | ⟨-, -, rfl, -⟩ | ⟨hr, hs, rfl, -⟩
  · rcases hprog with (⟨h1, -⟩ | ⟨h1, -⟩) | ⟨-, h2⟩
    · omega
    · omega
    · exact absurd he h2
  · omega
  · rw [work_left_cons]
    rcases hprog with (⟨h1, h2⟩ | ⟨h1, h2⟩) | ⟨h1, -⟩
    · obtain ⟨ho, hle⟩ := advance_offset d t.wr.r h1 h2
      rw [advance_blob] at hs ⊢
      rw [ho] at hs ⊢
      omega
    · have hadv : advance d t.wr.r = d := by simp [advance, h1]
      rw [hadv] at hs
      omega
    · omega

theorem output_write_loop_bounded (K : Consts) (fd : Int) (start : timespec) :
    ∀ (ticks : List Tick) (data : List write_data),
      writes_progress K fd start ticks data = true →
      output_write_iterations K fd start ticks data ≤ work_left data ∧
      (work_left data ≤ ticks.length →
        ∃ ret data' evs, output_write_loop K fd start ticks data = some (ret, data', evs)) := by
  intro ticks
  induction ticks with
  | nil =>
    intro data _
    cases data with
    | nil => exact ⟨by simp [output_write_iterations], fun _ => ⟨0, [], [], rfl⟩⟩
    | cons d rest =>
      refine ⟨by simp [output_write_iterations], ?_⟩
      intro hlen
      rw [work_left_cons] at hlen
      simp at hlen
  | cons t ts ih =>
    intro data hprog
    cases data with
    | nil => exact ⟨by simp [output_write_iterations], fun _ => ⟨0, [], [], rfl⟩⟩
    | cons d rest =>
      simp only [writes_progress, Bool.and_eq_true] at hprog
      obtain ⟨hp1, hp2⟩ := hprog
      simp only [output_write_iterations, output_write_loop]
      cases hbody : output_write_body K fd start t d rest with
      | stop ret1 data1 evs1 =>
        dsimp only
        refine ⟨?_, fun _ => ⟨ret1, data1, evs1, rfl⟩⟩
        rw [work_left_cons]
        omega
      | next q e =>
        rw [hbody] at hp2
        dsimp only at hp2 ⊢
        obtain ⟨ih1, ih2⟩ := ih q hp2
        have hdec := body_next_work_left K fd start t d rest q e hbody hp1
        refine ⟨by omega, ?_⟩
        intro hlen
        simp only [List.length_cons] at hlen
        obtain ⟨ret, data', evs, hl⟩ := ih2 (by omega)
        exact ⟨ret, data', e ++ evs, by rw [hl]⟩

theorem body_stalls (K : Consts) (fd : Int) (start : timespec) (t : Tick)
    (d : write_data) (rest : List write_data) (hb : budget_exceeded K start t.now = false)
    (hs : t.stalls d = true) :
    output_write_body K fd start t d rest = Iter.next (d :: rest) [write_event fd t d] := by
  simp only [Tick.stalls, Bool.or_eq_true, Bool.and_eq_true, decide_eq_true_eq] at hs
  rcases hs with ⟨h1, h2⟩ | ⟨h1, h2⟩
  · rw [body_wrote K fd start t d rest hb (by omega)]
    have hadv : advance d t.wr.r = d := by simp [advance, h1]
    rw [hadv, done_keep _ _ _ h2]
  · exact body_eintr K fd start t d rest hb h1 h2

theorem output_write_loop_stalled (K : Consts) (fd : Int) (start : timespec)
    (d : write_data) (rest : List write_data) :
    ∀ (ticks : List Tick),
      (∀ t ∈ ticks, budget_exceeded K start t.now = false ∧ t.stalls d = true) →
      output_write_loop K fd start ticks (d :: rest) = none ∧
      output_write_iterations K fd start ticks (d :: rest) = ticks.length ∧
      ∃ evs, output_write_after K fd start ticks (d :: rest) = some (d :: rest, evs) := by
  intro ticks
  induction ticks with
  | nil =>
    intro _
    exact ⟨rfl, rfl, [], rfl⟩
  | cons t ts ih =>
    intro h
    obtain ⟨hb, hs⟩ := h t (List.mem_cons_self _ _)
    obtain ⟨i1, i2, evs, i3⟩ := ih (fun x hx => h x (List.mem_cons_of_mem _ hx))
    have hbody := body_stalls K fd start t d rest hb hs
    refine ⟨?_, ?_, write_event fd t d :: evs, ?_⟩
    · simp [output_write_loop, hbody, i1]
    · simp [output_write_iterations, hbody, i2]
      omega
    · simp [output_write_after, hbody, i3]

/-- C20: when every `write` that the loop of `output_write` issues returns a
positive count no larger than the bytes asked for, or 0 on an entry with no
byte left, or fails with a code other than `EINTR`, then, whatever the clock
reads, the loop runs at most as many iterations as there are unwritten bytes in
the queue plus queue entries, and it returns once that many observations are
available. A `write` that returns 0 on an entry with bytes left, or fails with
`EINTR`, leaves the queue as it is; as long as every iteration is like that and
within the time budget the loop does not return, however many iterations run;
it returns (0, with the queue unchanged) at the first iteration that finds
the time budget exceeded. -/
theorem drain_loop_bound (K : Consts) (fd : Int) (start : timespec) :
    (∀ (ticks : List Tick) (data : List write_data),
      writes_progress K fd start ticks data = true →
      output_write_iterations K fd start ticks data ≤ (pending data).length + data.length ∧
      ((pending data).length + data.length ≤ ticks.length →
        ∃ ret data' evs, output_write_loop K fd start ticks data = some (ret, data', evs))) ∧
    (∀ (t : Tick) (d : write_data) (rest : List write_data),
      budget_exceeded K start t.now = false → t.stalls d = true →
      output_write_body K fd start t d rest = Iter.next (d :: rest) [write_event fd t d]) ∧
    (∀ (ticks : List Tick) (d : write_data) (rest : List write_data),
      (∀ t ∈ ticks, budget_exceeded K start t.now = false ∧ t.stalls d = true) →
      output_write_loop K fd start ticks (d :: rest) = none ∧
      output_write_iterations K fd start ticks (d :: rest) = ticks.length ∧
      (∀ (t : Tick) (post : List Tick), budget_exceeded K start t.now = true →
        ∃ evs, output_write_loop K fd start (ticks ++ t :: post) (d :: rest) =
          some (0, d :: rest, evs))) := by
  refine ⟨?_, ?_, ?_⟩
  · intro ticks data hprog
    exact output_write_loop_bounded K fd start ticks data hprog
  · intro t d rest hb hs
    exact body_stalls K fd start t d rest hb hs
  · intro ticks d rest h
    obtain ⟨h1, h2, evs, h3⟩ := output_write_loop_stalled K fd start d rest ticks h
    refine ⟨h1, h2, ?_⟩
    intro t post ht
    refine ⟨evs ++ [], ?_⟩
    rw [output_write_loop_append K fd start ticks (d :: rest) (d :: rest) evs (t :: post) h3]
    simp [output_write_loop, body_late K fd start t d rest ht]

theorem drain_loop_bound_witness :
    output_write_iterations K0 1 t0 [tick_ok 2, tick_ok 1, tick_ok 2] [⟨blobA, 0⟩, ⟨blobB, 0⟩] ≤
        (pending [⟨blobA, 0⟩, ⟨blobB, 0⟩]).length + [(⟨blobA, 0⟩ : write_data), ⟨blobB, 0⟩].length ∧
    output_write_loop K0 1 t0 [tick_ok 0, tick_err 4, tick_ok 0] [⟨blobA, 0⟩] = none :=
  ⟨((drain_loop_bound K0 1 t0).1 [tick_ok 2, tick_ok 1, tick_ok 2] [⟨blobA, 0⟩, ⟨blobB, 0⟩]
      (by decide)).1,
   ((drain_loop_bound K0 1 t0).2.2 [tick_ok 0, tick_err 4, tick_ok 0] ⟨blobA, 0⟩ []
      (by decide)).1⟩

end Soletta
